import Mathlib

/-!
Verification of the text/tree synchronizer of the Tauri-JSON-Editor
repository (src/App.vue and the two unnamed component files).

The component state is three reactive fields: `rawJsonInput` (the
authoritative text buffer), `displayData` (the last successfully parsed
JSON value, rendered by the tree widget) and `errorMessage` (the
diagnostic line).  The operations are the watcher callback
`handleRawJsonInputChange`, the tree-edit handler `handleEdit`, the
format/minify toggle `_toggleFormat` (named `toggleFormat` here), the
file loader `displayJSON` and `saveFile`.

JSON values are embedded as the inductive `Json`.  `JSON.parse` is
embedded as a fuel-indexed recursive-descent parser over `List Char`
(`parseValue`), and `JSON.stringify` with/without the 2-space indent as
`serJson`.  Numbers are modelled as integers: IEEE-754 doubles are
outside the embedding, and none of the verified properties depends on
non-integer numerics.  Strings are Unicode scalar sequences (Lean
`String`); JavaScript lone UTF-16 surrogates are outside the embedding.
-/

/-- JSON values, as produced by `JSON.parse`. -/
inductive Json where
  | null : Json
  | bool (b : Bool) : Json
  | num (n : Int) : Json
  | str (s : String) : Json
  | arr (elems : List Json) : Json
  | obj (members : List (String × Json)) : Json

/-- Structured parse errors; `JSON.parse` raises a `SyntaxError` whose
`message` we model with `JsonError.message` below. -/
inductive JsonError where
  | unexpectedEnd
  | unexpectedChar (c : Char)
  | badLiteral
  | unterminatedString
  | badEscape
  | badControlChar
  | leadingZero
  | expectedDigit
  | expectedColon
  | expectedKey
  | expectedCommaOrBracket
  | expectedCommaOrBrace
  | trailingData
  | fuelExhausted

/-- Human-readable message of a parse error (the `e.message` the
component stores).  Engine messages vary; only non-emptiness and the
`Invalid JSON: ` wrapping are relied on by the spec. -/
def JsonError.message : JsonError → String
  | .unexpectedEnd => "Unexpected end of JSON input"
  | .unexpectedChar _ => "Unexpected token in JSON"
  | .badLiteral => "Unexpected token in JSON literal"
  | .unterminatedString => "Unterminated string in JSON"
  | .badEscape => "Bad escaped character in JSON string"
  | .badControlChar => "Bad control character in JSON string literal"
  | .leadingZero => "Unexpected number with leading zero in JSON"
  | .expectedDigit => "No number after minus sign in JSON"
  | .expectedColon => "Expected colon after property name in JSON"
  | .expectedKey => "Expected property name or close brace in JSON"
  | .expectedCommaOrBracket => "Expected comma or close bracket after array element in JSON"
  | .expectedCommaOrBrace => "Expected comma or close brace after property value in JSON"
  | .trailingData => "Unexpected non-whitespace character after JSON data"
  | .fuelExhausted => "JSON nesting too deep"

/-- The JSON whitespace characters (RFC 8259 / `JSON.parse`). -/
def isJsonWs (c : Char) : Bool :=
  c == ' ' || c == '\t' || c == '\n' || c == '\r'

/-- Skip leading JSON whitespace. -/
def skipWs (cs : List Char) : List Char := cs.dropWhile isJsonWs

/-- Value of a hexadecimal digit character. -/
def hexVal (c : Char) : Nat :=
  if c.isDigit then c.toNat - 48
  else if 'a' ≤ c && c ≤ 'f' then c.toNat - 87
  else c.toNat - 55

/-- Hexadecimal digit recognizer. -/
def isHexDigitChar (c : Char) : Bool :=
  c.isDigit || ('a' ≤ c && c ≤ 'f') || ('A' ≤ c && c ≤ 'F')

/-- Decimal digits of `n`, least significant first, with an explicit
fuel so that the definition is structural (and kernel-reducible).
`natDigitsRevFuel n n` is the full digit list of `n`. -/
def natDigitsRevFuel : Nat → Nat → List Char
  | 0, _ => []
  | _ + 1, 0 => []
  | fuel + 1, n + 1 => Nat.digitChar ((n + 1) % 10) :: natDigitsRevFuel fuel ((n + 1) / 10)

/-- Decimal representation of a natural number, as `Number#toString`
produces for naturals. -/
def natChars (n : Nat) : List Char :=
  if n = 0 then ['0'] else (natDigitsRevFuel n n).reverse

/-- Decimal representation of an integer, as `JSON.stringify` prints an
integral number. -/
def serNum (i : Int) : List Char :=
  if i < 0 then '-' :: natChars i.natAbs else natChars i.natAbs

/-- Numeric value of a list of decimal digit characters. -/
def digitsVal (ds : List Char) : Nat :=
  ds.foldl (fun a c => a * 10 + (c.toNat - 48)) 0

/-- Numeric value of a little-endian digit list (proof helper relating
`digitsVal` to `natDigitsRevFuel`). -/
def valRev : List Char → Nat
  | [] => 0
  | c :: cs => (c.toNat - 48) + 10 * valRev cs

/-- Escape of one character inside a JSON string literal, exactly the
`QuoteJSONString` table of `JSON.stringify`: quote, backslash, the five
short escapes, `\u00xx` for remaining control characters, and everything
else literally. -/
def escapeChar (c : Char) : List Char :=
  if c = '\x22' then ['\x5c', '\x22']
  else if c = '\x5c' then ['\x5c', '\x5c']
  else if c = '\x08' then ['\x5c', 'b']
  else if c = '\x09' then ['\x5c', 't']
  else if c = '\x0a' then ['\x5c', 'n']
  else if c = '\x0c' then ['\x5c', 'f']
  else if c = '\x0d' then ['\x5c', 'r']
  else if c.toNat < 32 then
    ['\x5c', 'u', '0', '0', Nat.digitChar (c.toNat / 16), Nat.digitChar (c.toNat % 16)]
  else [c]

/-- Escape a whole character sequence. -/
def escStr : List Char → List Char
  | [] => []
  | c :: cs => escapeChar c ++ escStr cs

/-- Serialization of a string value, quotes included. -/
def serStr (s : String) : List Char := '\x22' :: escStr s.data ++ ['\x22']

/-- Newline plus indentation emitted by `JSON.stringify(v, null, 2)` at
nesting depth `d`; nothing in minified mode. -/
def nlInd (p : Bool) (d : Nat) : List Char :=
  if p then '\n' :: List.replicate (2 * d) ' ' else []

/-- Separator between a property name and its value: `": "` pretty,
`":"` minified. -/
def colonSep (p : Bool) : List Char :=
  if p then [':', ' '] else [':']

mutual
/-- `JSON.stringify`: pretty-printed with 2-space indent when `p` is
true (`JSON.stringify(v, null, 2)`), minified when `p` is false
(`JSON.stringify(v)`).  `d` is the current nesting depth. -/
def serJson (p : Bool) (d : Nat) : Json → List Char
  | .null => "null".data
  | .bool true => "true".data
  | .bool false => "false".data
  | .num i => serNum i
  | .str s => serStr s
  | .arr [] => ['[', ']']
  | .arr (x :: xs) =>
    '[' :: (nlInd p (d + 1) ++ serItems p (d + 1) (x :: xs) ++ nlInd p d ++ [']'])
  | .obj [] => ['\x7b', '\x7d']
  | .obj (m :: ms) =>
    '\x7b' :: (nlInd p (d + 1) ++ serMembers p (d + 1) (m :: ms) ++ nlInd p d ++ ['\x7d'])

/-- Comma-separated array elements (only ever applied to non-empty
lists). -/
def serItems (p : Bool) (d : Nat) : List Json → List Char
  | [] => []
  | [x] => serJson p d x
  | x :: y :: ys => serJson p d x ++ ',' :: (nlInd p d ++ serItems p d (y :: ys))

/-- Comma-separated object members (only ever applied to non-empty
lists). -/
def serMembers (p : Bool) (d : Nat) : List (String × Json) → List Char
  | [] => []
  | [(k, v)] => serStr k ++ colonSep p ++ serJson p d v
  | (k, v) :: n :: ns =>
    serStr k ++ colonSep p ++ serJson p d v ++ ',' :: (nlInd p d ++ serMembers p d (n :: ns))
end

/-- What follows the first member in a member list: nothing, or a
comma, line break and the remaining members (proof helper naming the
tail of `serMembers`). -/
def serMembersTail (p : Bool) (d : Nat) : List (String × Json) → List Char
  | [] => []
  | n :: ns => ',' :: (nlInd p d ++ serMembers p d (n :: ns))

/-- `JSON.stringify(v)` (minified). -/
def stringifyMin (v : Json) : String := ⟨serJson false 0 v⟩

/-- `JSON.stringify(v, null, 2)` (pretty, 2-space indent). -/
def stringify2 (v : Json) : String := ⟨serJson true 0 v⟩

/-- Parse the body of a string literal after the opening quote,
returning the decoded characters and the input after the closing
quote. -/
def parseStringBody : List Char → Except JsonError (List Char × List Char)
  | [] => .error .unterminatedString
  | '\x22' :: rest => .ok ([], rest)
  | '\x5c' :: rest =>
    match rest with
    | '\x22' :: r =>
      match parseStringBody r with
      | .ok (s, r2) => .ok ('\x22' :: s, r2)
      | .error e => .error e
    | '\x5c' :: r =>
      match parseStringBody r with
      | .ok (s, r2) => .ok ('\x5c' :: s, r2)
      | .error e => .error e
    | '/' :: r =>
      match parseStringBody r with
      | .ok (s, r2) => .ok ('/' :: s, r2)
      | .error e => .error e
    | 'b' :: r =>
      match parseStringBody r with
      | .ok (s, r2) => .ok ('\x08' :: s, r2)
      | .error e => .error e
    | 'f' :: r =>
      match parseStringBody r with
      | .ok (s, r2) => .ok ('\x0c' :: s, r2)
      | .error e => .error e
    | 'n' :: r =>
      match parseStringBody r with
      | .ok (s, r2) => .ok ('\x0a' :: s, r2)
      | .error e => .error e
    | 'r' :: r =>
      match parseStringBody r with
      | .ok (s, r2) => .ok ('\x0d' :: s, r2)
      | .error e => .error e
    | 't' :: r =>
      match parseStringBody r with
      | .ok (s, r2) => .ok ('\x09' :: s, r2)
      | .error e => .error e
    | 'u' :: h1 :: h2 :: h3 :: h4 :: r =>
      if isHexDigitChar h1 && isHexDigitChar h2 && isHexDigitChar h3 && isHexDigitChar h4 then
        match parseStringBody r with
        | .ok (s, r2) =>
          .ok (Char.ofNat (hexVal h1 * 4096 + hexVal h2 * 256 + hexVal h3 * 16 + hexVal h4) :: s, r2)
        | .error e => .error e
      else .error .badEscape
    | _ => .error .badEscape
  | c :: rest =>
    if c.toNat < 32 then .error .badControlChar
    else
      match parseStringBody rest with
      | .ok (s, r2) => .ok (c :: s, r2)
      | .error e => .error e

/-- Parse a JSON natural-number token (digit run, rejecting leading
zeros as `JSON.parse` does). -/
def parseNatTok : List Char → Except JsonError (Nat × List Char)
  | [] => .error .expectedDigit
  | c :: rest =>
    if c = '0' then
      match rest with
      | r :: _ => if r.isDigit then .error .leadingZero else .ok (0, rest)
      | [] => .ok (0, [])
    else if c.isDigit then
      .ok (digitsVal (c :: rest.takeWhile Char.isDigit), rest.dropWhile Char.isDigit)
    else .error .expectedDigit

/-- Head test used for the empty-array/empty-object check. -/
def headIs (c : Char) : List Char → Bool
  | [] => false
  | d :: _ => d == c

/-- Token-level dispatch of `JSON.parse` after whitespace has been
skipped.  The array/object element loops are passed in as `pA`/`pO`
(`parseValue` instantiates them at one fuel less). -/
def parseTop (pA : List Char → Except JsonError (List Json × List Char))
    (pO : List Char → Except JsonError (List (String × Json) × List Char)) :
    List Char → Except JsonError (Json × List Char)
  | [] => .error .unexpectedEnd
  | 'n' :: rest =>
    match rest with
    | 'u' :: 'l' :: 'l' :: r => .ok (.null, r)
    | _ => .error .badLiteral
  | 't' :: rest =>
    match rest with
    | 'r' :: 'u' :: 'e' :: r => .ok (.bool true, r)
    | _ => .error .badLiteral
  | 'f' :: rest =>
    match rest with
    | 'a' :: 'l' :: 's' :: 'e' :: r => .ok (.bool false, r)
    | _ => .error .badLiteral
  | '\x22' :: rest =>
    match parseStringBody rest with
    | .ok (s, r) => .ok (.str ⟨s⟩, r)
    | .error e => .error e
  | '[' :: rest =>
    if headIs ']' (skipWs rest) then .ok (.arr [], (skipWs rest).tail)
    else
      match pA (skipWs rest) with
      | .ok (l, r) => .ok (.arr l, r)
      | .error e => .error e
  | '\x7b' :: rest =>
    if headIs '\x7d' (skipWs rest) then .ok (.obj [], (skipWs rest).tail)
    else
      match pO (skipWs rest) with
      | .ok (l, r) => .ok (.obj l, r)
      | .error e => .error e
  | '-' :: rest =>
    match parseNatTok rest with
    | .ok (n, r) => .ok (.num (-(n : Int)), r)
    | .error e => .error e
  | c :: rest =>
    if c.isDigit then
      match parseNatTok (c :: rest) with
      | .ok (n, r) => .ok (.num (n : Int), r)
      | .error e => .error e
    else .error (.unexpectedChar c)

mutual
/-- Recursive-descent `JSON.parse` for one value.  The fuel only bounds
nesting; the top-level wrapper supplies more fuel than any input can
consume.  Fractions and exponents are not modelled (numbers are
integers in this embedding), so a `.` or `e` after a number is rejected
rather than parsed. -/
def parseValue : Nat → List Char → Except JsonError (Json × List Char)
  | 0, _ => .error .fuelExhausted
  | fuel + 1, cs => parseTop (parseArrayItems fuel) (parseObjectItems fuel) (skipWs cs)

/-- Parse the elements of a non-empty array, `value (ws , value)* ws ]`,
consuming the closing bracket. -/
def parseArrayItems : Nat → List Char → Except JsonError (List Json × List Char)
  | 0, _ => .error .fuelExhausted
  | fuel + 1, cs =>
    match parseValue fuel cs with
    | .ok (v, cs1) =>
      match skipWs cs1 with
      | ',' :: cs2 =>
        match parseArrayItems fuel cs2 with
        | .ok (l, cs3) => .ok (v :: l, cs3)
        | .error e => .error e
      | ']' :: cs2 => .ok ([v], cs2)
      | _ => .error .expectedCommaOrBracket
    | .error e => .error e

/-- Parse the members of a non-empty object, closing brace included. -/
def parseObjectItems : Nat → List Char → Except JsonError (List (String × Json) × List Char)
  | 0, _ => .error .fuelExhausted
  | fuel + 1, cs =>
    match skipWs cs with
    | '\x22' :: cs1 =>
      match parseStringBody cs1 with
      | .ok (k, cs2) =>
        match skipWs cs2 with
        | ':' :: cs3 =>
          match parseValue fuel cs3 with
          | .ok (v, cs4) =>
            match skipWs cs4 with
            | ',' :: cs5 =>
              match parseObjectItems fuel cs5 with
              | .ok (l, cs6) => .ok ((⟨k⟩, v) :: l, cs6)
              | .error e => .error e
            | '\x7d' :: cs5 => .ok ([(⟨k⟩, v)], cs5)
            | _ => .error .expectedCommaOrBrace
          | .error e => .error e
        | _ => .error .expectedColon
      | .error e => .error e
    | _ => .error .expectedKey

end

/-- `JSON.parse` on a whole string: one value, then only trailing
whitespace. -/
def parseJsonE (s : String) : Except JsonError Json :=
  match parseValue (s.length + 1) s.data with
  | .ok (v, rest) =>
    match skipWs rest with
    | [] => .ok v
    | c :: _ => .error (.unexpectedChar c)
  | .error e => .error e

/-- `JSON.parse` with the error mapped to its displayed message, the
form in which the component consumes it (`error.message`). -/
def jsonParse (s : String) : Except String Json :=
  match parseJsonE s with
  | .ok v => .ok v
  | .error e => .error e.message

mutual
/-- Fuel sufficient for `parseValue` to parse a serialization of `v`:
one unit per `parseValue`/`parseArrayItems`/`parseObjectItems` call. -/
def jfuel : Json → Nat
  | .null => 1
  | .bool _ => 1
  | .num _ => 1
  | .str _ => 1
  | .arr [] => 1
  | .arr (x :: xs) => 1 + jfuelItems (x :: xs)
  | .obj [] => 1
  | .obj (m :: ms) => 1 + jfuelMembers (m :: ms)

/-- Fuel for the element loop of a non-empty array. -/
def jfuelItems : List Json → Nat
  | [] => 0
  | [x] => 1 + jfuel x
  | x :: y :: ys => 1 + jfuel x + jfuelItems (y :: ys)

/-- Fuel for the member loop of a non-empty object. -/
def jfuelMembers : List (String × Json) → Nat
  | [] => 0
  | [(_, v)] => 1 + jfuel v
  | (_, v) :: n :: ns => 1 + jfuel v + jfuelMembers (n :: ns)
end

/-- Induction over `Json` through the nested lists, by membership. -/
def Json.recOnMem {motive : Json → Prop}
    (hnull : motive .null)
    (hbool : ∀ b, motive (.bool b))
    (hnum : ∀ n, motive (.num n))
    (hstr : ∀ s, motive (.str s))
    (harr : ∀ l, (∀ x ∈ l, motive x) → motive (.arr l))
    (hobj : ∀ l, (∀ m ∈ l, motive m.2) → motive (.obj l)) :
    ∀ j, motive j
  | .null => hnull
  | .bool b => hbool b
  | .num n => hnum n
  | .str s => hstr s
  | .arr l => harr l (fun x hx =>
      Json.recOnMem hnull hbool hnum hstr harr hobj x)
  | .obj l => hobj l (fun m hm =>
      Json.recOnMem hnull hbool hnum hstr harr hobj m.2)
termination_by j => sizeOf j
decreasing_by
  · have h1 := List.sizeOf_lt_of_mem hx
    have h2 : sizeOf (Json.arr l) = 1 + sizeOf l := by
      simp [Json.arr.sizeOf_spec]
    omega
  · have h1 : sizeOf m.2 < sizeOf m := by
      obtain ⟨a, b⟩ := m
      simp only [Prod.mk.sizeOf_spec]
      omega
    have h2 := List.sizeOf_lt_of_mem hm
    have h3 : sizeOf (Json.obj l) = 1 + sizeOf l := by
      simp [Json.obj.sizeOf_spec]
    omega

/-- The "head of the remaining input is not a digit" side condition of
the number-token lemma. -/
def headNotDigit : List Char → Prop
  | [] => True
  | c :: _ => c.isDigit = false

/-- The three reactive fields of the component. -/
structure EditorState where
  rawJsonInput : String
  displayData : Json
  errorMessage : String

/-- The watcher callback on `rawJsonInput` (part_001 lines 192-200 and
the `watch` in App.vue lines 37-46): parse, on success replace
`displayData` and clear the message, on failure store the message and
leave `displayData` untouched. -/
def handleRawJsonInputChange (s : EditorState) (newInput : String) : EditorState :=
  match jsonParse newInput with
  | .ok parsed => { s with displayData := parsed, errorMessage := "" }
  | .error e => { s with errorMessage := e }

/-- A text-changed event: the textarea v-model writes `rawJsonInput`,
then the watcher runs `handleRawJsonInputChange` on the new text. -/
def onTextChanged (s : EditorState) (t : String) : EditorState :=
  handleRawJsonInputChange { s with rawJsonInput := t } t

/-- Deferred watcher flush after a handler that may have reassigned
`rawJsonInput`: Vue runs the watcher only when the value actually
changed from `old`. -/
def flushRawWatcher (old : String) (s : EditorState) : EditorState :=
  if s.rawJsonInput = old then s else handleRawJsonInputChange s s.rawJsonInput

/-- The tree-edit handler `handleEdit` (part_001 lines 185-187):
re-serialize the edited value with 2-space indent into `rawJsonInput`;
the watcher then re-parses it. -/
def handleEdit (s : EditorState) (newData : Json) : EditorState :=
  flushRawWatcher s.rawJsonInput { s with rawJsonInput := stringify2 newData }

/-- Synchronous body of `_toggleFormat` (part_001 lines 240-249):
parse `rawJsonInput`; on success rewrite it pretty (mode false) or
minified (mode true) and clear the message; on failure store the
wrapped message. -/
def toggleFormatCore (s : EditorState) (isFormatMode : Bool) : EditorState :=
  match jsonParse s.rawJsonInput with
  | .ok parsed =>
    { s with
      rawJsonInput := if isFormatMode then stringifyMin parsed else stringify2 parsed,
      errorMessage := "" }
  | .error e => { s with errorMessage := "Invalid JSON: " ++ e }

/-- `_toggleFormat` followed by the deferred watcher flush. -/
def toggleFormat (s : EditorState) (isFormatMode : Bool) : EditorState :=
  flushRawWatcher s.rawJsonInput (toggleFormatCore s isFormatMode)

/-- The spec's `format()` (`formatJson` in App.vue lines 48-56,
`_toggleFormat(false)` in part_001). -/
def formatJson (s : EditorState) : EditorState := toggleFormat s false

/-- The spec's `minify()` (`minifyJson` in App.vue lines 58-66,
`_toggleFormat(true)` in part_001). -/
def minifyJson (s : EditorState) : EditorState := toggleFormat s true

/-- The sample document `rawJsonInput` is initialized with. -/
def initRawText : String :=
  "\x7b\n  \x22name\x22: \x22Tauri-JSON-Editor\x22,\n  \x22version\x22: \x221.0.0\x22,\n  \x22isAwesome\x22: true,\n  \x22features\x22: [\n    \x22Real-time JSON validation\x22,\n    \x22Pretty formatting\x22\n  ],\n  \x22details\x22: \x7b\n    \x22level\x22: 1,\n    \x22active\x22: null\n  \x7d\n\x7d"

/-- The parsed sample document. -/
def initJsonValue : Json :=
  .obj [("name", .str "Tauri-JSON-Editor"),
        ("version", .str "1.0.0"),
        ("isAwesome", .bool true),
        ("features", .arr [.str "Real-time JSON validation", .str "Pretty formatting"]),
        ("details", .obj [("level", .num 1), ("active", .null)])]

/-- Initialization (part_001 lines 46-50): parse the sample text into
`displayData`, substituting a placeholder object if it failed. -/
def initState : EditorState :=
  { rawJsonInput := initRawText
    displayData :=
      match jsonParse initRawText with
      | .ok v => v
      | .error _ => Json.obj [("error", Json.str "Invalid initial JSON")]
    errorMessage := "" }

/-- The accepted file extensions (part_001 line 34). -/
def fileExtensions : List String := ["json", "txt"]

/-- `String.prototype.split('.')` over the characters of a path. -/
def splitOnDot : List Char → List (List Char)
  | [] => [[]]
  | c :: cs =>
    if c = '.' then [] :: splitOnDot cs
    else
      match splitOnDot cs with
      | [] => [[c]]
      | seg :: segs => (c :: seg) :: segs

/-- `filePath.split('.').pop() || ''`: the substring after the last
dot, or the whole path when it has none. -/
def fileExtensionOf (p : String) : String := ⟨(splitOnDot p.data).getLastD []⟩

/-- Strip one trailing NUL, as the line loop of `displayJSON` does
(`line.endsWith('\0')` then `slice(0, -1)`). -/
def stripTrailingNul (l : String) : String :=
  match l.data.getLast? with
  | some '\x00' => ⟨l.data.dropLast⟩
  | _ => l

/-- ASCII whitespace trimmed by `String.prototype.trim` (the Unicode
cases do not occur in this component's data). -/
def isJsTrimWs (c : Char) : Bool :=
  c == ' ' || c == '\t' || c == '\n' || c == '\r' || c == '\x0b' || c == '\x0c'

/-- `String.prototype.trim`. -/
def jsTrim (s : String) : String :=
  ⟨(((s.data.dropWhile isJsTrimWs).reverse.dropWhile isJsTrimWs).reverse)⟩

/-- Reassemble the file content as `displayJSON` does: NUL-stripped
lines joined with newlines, then trimmed. -/
def processFileLines (lines : List String) : String :=
  jsTrim (String.join (lines.map (fun l => stripTrailingNul l ++ "\n")))

/-- Accepted-file branch of `displayJSON`: store the processed content
in `rawJsonInput`, run `_toggleFormat` synchronously, then let the
coalesced watcher flush against the pre-call value. -/
def loadFileContent (s : EditorState) (isFormatMode : Bool) (lines : List String) : EditorState :=
  flushRawWatcher s.rawJsonInput
    (toggleFormatCore { s with rawJsonInput := processFileLines lines } isFormatMode)

/-- The file loader `displayJSON` (part_001 lines 161-179).  `filePath`
is the dialog/drag-drop result (`none` for a null path), `lines` the
file content that `readTextFileLines` would yield. -/
def displayJSON (s : EditorState) (isFormatMode : Bool) (filePath : Option String)
    (lines : List String) : EditorState :=
  match filePath with
  | none => { s with errorMessage := "file extension is null." }
  | some p =>
    if p = "" then { s with errorMessage := "file extension is null." }
    else if fileExtensions.contains (fileExtensionOf p) then
      loadFileContent s isFormatMode lines
    else { s with errorMessage := "Unsupported file type: " ++ fileExtensionOf p }

/-- The save handler `saveFile` (part_001 lines 137-155): it first sets
the message to `File saved successfully!`, overwrites it when the
dialog returned no path, and wraps any write error.  `writeError` is
the outcome of `writeTextFile`. -/
def saveFile (s : EditorState) (filePath : Option String) (writeError : Option String) : EditorState :=
  match filePath with
  | none => { s with errorMessage := "No file path selected." }
  | some _ =>
    match writeError with
    | none => { s with errorMessage := "File saved successfully!" }
    | some err => { s with errorMessage := "Error saving file: " ++ toString err }

/-- The synchronizer operations quantified over by the state
invariants. -/
inductive Op where
  | textChanged (t : String)
  | treeEdited (v : Json)
  | format
  | minify

/-- Apply one operation. -/
def applyOp (s : EditorState) : Op → EditorState
  | .textChanged t => onTextChanged s t
  | .treeEdited v => handleEdit s v
  | .format => formatJson s
  | .minify => minifyJson s

/-- Run a sequence of operations. -/
def runOps (s : EditorState) (ops : List Op) : EditorState := ops.foldl applyOp s

/-- The `rawJsonInput` values of the states reached after each
operation. -/
def rawsAfter (s : EditorState) : List Op → List String
  | [] => []
  | op :: ops => (applyOp s op).rawJsonInput :: rawsAfter (applyOp s op) ops

/-- Fold step: remember the parse of the most recent raw text that
parsed successfully. -/
def stepLastGood (acc : Option Json) (r : String) : Option Json :=
  match jsonParse r with
  | .ok v => some v
  | .error _ => acc

/-- The parse of the most recent successfully parsing raw text of a
trace, if any. -/
def lastGoodFrom (acc : Option Json) (rs : List String) : Option Json :=
  rs.foldl stepLastGood acc

/-- Synchronization invariant: whenever the current text parses, the
display shows exactly its parse. -/
def GoodSync (s : EditorState) : Prop :=
  ∀ v, jsonParse s.rawJsonInput = .ok v → s.displayData = v

/-- A small state whose text is the valid example document of the spec. -/
def exampleValidState : EditorState :=
  ⟨"\x7b\x22a\x22:1\x7d", Json.null, "x"⟩

/-- A small state whose text is the spec's truncated (invalid) document. -/
def exampleInvalidState : EditorState :=
  ⟨"\x7b\x22a\x22:1", Json.null, ""⟩

/-- A state whose text already equals the pretty serialization of a value,
so a tree edit emitting that value does not change the text and the
deferred watcher does not fire. -/
def exampleEditNoopState : EditorState :=
  ⟨stringify2 (Json.num 1), Json.num 1, "stale"⟩

/-! ## Character and whitespace lemmas -/

theorem isJsonWs_cases {c : Char} (h : isJsonWs c = true) :
    c = ' ' ∨ c = '\t' ∨ c = '\n' ∨ c = '\r' := by
  simp only [isJsonWs, Bool.or_eq_true, beq_iff_eq] at h
  tauto

theorem not_isDigit_of_isJsonWs {c : Char} (h : isJsonWs c = true) : c.isDigit = false := by
  rcases isJsonWs_cases h with rfl | rfl | rfl | rfl <;> decide

theorem isJsonWs_of_isDigit {c : Char} (h : c.isDigit = true) : isJsonWs c = false := by
  rcases h2 : isJsonWs c with _ | _
  · rfl
  · rw [not_isDigit_of_isJsonWs h2] at h
    exact absurd h (by decide)

theorem ne_of_isDigit {c x : Char} (h : c.isDigit = true) (hx : x.isDigit = false) : c ≠ x := by
  intro he
  subst he
  rw [h] at hx
  exact absurd hx (by decide)

/-! ## skipWs lemmas -/

theorem skipWs_nil : skipWs [] = [] := rfl

theorem skipWs_cons_neg {c : Char} (h : isJsonWs c = false) (cs : List Char) :
    skipWs (c :: cs) = c :: cs := by
  simp [skipWs, List.dropWhile_cons, h]

theorem skipWs_cons_pos {c : Char} (h : isJsonWs c = true) (cs : List Char) :
    skipWs (c :: cs) = skipWs cs := by
  simp [skipWs, List.dropWhile_cons, h]

theorem skipWs_append_allWs {ws : List Char} (h : ∀ c ∈ ws, isJsonWs c = true)
    (cs : List Char) : skipWs (ws ++ cs) = skipWs cs := by
  induction ws with
  | nil => rfl
  | cons c t ih =>
    rw [List.cons_append, skipWs_cons_pos (h c (by simp)) (t ++ cs)]
    exact ih (fun x hx => h x (by simp [hx]))

theorem nlInd_allWs (p : Bool) (d : Nat) : ∀ c ∈ nlInd p d, isJsonWs c = true := by
  intro c hc
  cases p with
  | false => simp [nlInd] at hc
  | true =>
    simp only [nlInd, if_pos] at hc
    rcases List.mem_cons.mp hc with rfl | hc
    · decide
    · rw [List.eq_of_mem_replicate hc]
      decide

/-! ## Digit representation lemmas -/

theorem digitChar_isDigit : ∀ d : Nat, d < 10 → (Nat.digitChar d).isDigit = true := by decide

theorem digitChar_toNat : ∀ d : Nat, d < 10 → (Nat.digitChar d).toNat - 48 = d := by decide

theorem digitChar_ne_zero : ∀ d : Nat, d < 10 → 0 < d → Nat.digitChar d ≠ '0' := by decide

theorem natDigitsRevFuel_zero : ∀ fuel, natDigitsRevFuel fuel 0 = [] := by
  intro fuel
  cases fuel <;> rfl

theorem natDigitsRevFuel_digits :
    ∀ fuel n, n ≤ fuel → ∀ c ∈ natDigitsRevFuel fuel n, c.isDigit = true := by
  intro fuel
  induction fuel with
  | zero =>
    intro n h c hc
    simp [natDigitsRevFuel] at hc
  | succ f ih =>
    intro n h c hc
    cases n with
    | zero => simp [natDigitsRevFuel] at hc
    | succ m =>
      simp only [natDigitsRevFuel] at hc
      rcases List.mem_cons.mp hc with rfl | hc
      · exact digitChar_isDigit _ (Nat.mod_lt _ (by omega))
      · exact ih ((m + 1) / 10) (by omega) c hc

theorem natDigitsRevFuel_val : ∀ fuel n, n ≤ fuel → valRev (natDigitsRevFuel fuel n) = n := by
  intro fuel
  induction fuel with
  | zero =>
    intro n h
    have : n = 0 := by omega
    subst this
    rfl
  | succ f ih =>
    intro n h
    cases n with
    | zero => rfl
    | succ m =>
      have hdiv : (m + 1) / 10 ≤ f := by
        have := Nat.div_lt_self (Nat.succ_pos m) (by omega : 1 < 10)
        omega
      simp only [natDigitsRevFuel, valRev]
      rw [ih _ hdiv, digitChar_toNat _ (Nat.mod_lt _ (by omega))]
      omega

theorem natDigitsRevFuel_ne_nil : ∀ fuel n, 0 < n → n ≤ fuel → natDigitsRevFuel fuel n ≠ [] := by
  intro fuel n h0 hf
  cases fuel with
  | zero => omega
  | succ f =>
    cases n with
    | zero => omega
    | succ m => simp [natDigitsRevFuel]

theorem natDigitsRevFuel_getLast :
    ∀ fuel n, 0 < n → n ≤ fuel → ∀ c, (natDigitsRevFuel fuel n).getLast? = some c →
      c ≠ '0' := by
  intro fuel
  induction fuel with
  | zero =>
    intro n h0 hf
    omega
  | succ f ih =>
    intro n h0 hf c hc
    cases n with
    | zero => omega
    | succ m =>
      by_cases hdiv : (m + 1) / 10 = 0
      · have hm : m + 1 < 10 := by
          rcases Nat.lt_or_ge (m + 1) 10 with h | h
          · exact h
          · exact absurd hdiv (by have := Nat.div_le_div_right (c := 10) h; simp at this; omega)
        have hmod : (m + 1) % 10 = m + 1 := Nat.mod_eq_of_lt hm
        simp only [natDigitsRevFuel, hdiv, natDigitsRevFuel_zero, List.getLast?_singleton,
          Option.some_inj, hmod] at hc
        subst hc
        exact digitChar_ne_zero _ hm (by omega)
      · have hne := natDigitsRevFuel_ne_nil f ((m + 1) / 10) (by omega)
          (by have := Nat.div_lt_self (Nat.succ_pos m) (by omega : 1 < 10); omega)
        obtain ⟨d, t, hdt⟩ := List.exists_cons_of_ne_nil hne
        simp only [natDigitsRevFuel, hdt, List.getLast?_cons_cons] at hc
        refine ih ((m + 1) / 10) (by omega)
          (by have := Nat.div_lt_self (Nat.succ_pos m) (by omega : 1 < 10); omega) c ?_
        rw [hdt]
        exact hc

theorem natChars_head :
    ∀ n : Nat, ∃ c t, natChars n = c :: t ∧ c.isDigit = true ∧ (0 < n → c ≠ '0') := by
  intro n
  by_cases hn : n = 0
  · subst hn
    exact ⟨'0', [], rfl, by decide, by omega⟩
  · have hne : natDigitsRevFuel n n ≠ [] := natDigitsRevFuel_ne_nil n n (by omega) le_rfl
    have hrev : (natDigitsRevFuel n n).reverse ≠ [] := by simpa using hne
    obtain ⟨c, t, hct⟩ := List.exists_cons_of_ne_nil hrev
    have hhead : (natDigitsRevFuel n n).reverse.head? = some c := by rw [hct]; rfl
    rw [List.head?_reverse] at hhead
    refine ⟨c, t, by rw [natChars, if_neg hn, hct], ?_, fun _ => ?_⟩
    · have hmem : c ∈ natDigitsRevFuel n n := by
        rw [← List.mem_reverse, hct]
        exact List.mem_cons_self c t
      exact natDigitsRevFuel_digits n n le_rfl c hmem
    · exact natDigitsRevFuel_getLast n n (by omega) le_rfl c hhead

theorem natChars_all_digits : ∀ n, ∀ c ∈ natChars n, c.isDigit = true := by
  intro n c hc
  by_cases hn : n = 0
  · subst hn
    have h0 : natChars 0 = ['0'] := rfl
    rw [h0, List.mem_singleton] at hc
    subst hc
    decide
  · simp only [natChars, if_neg hn, List.mem_reverse] at hc
    exact natDigitsRevFuel_digits n n le_rfl c hc

theorem digitsVal_append_single (xs : List Char) (c : Char) :
    digitsVal (xs ++ [c]) = digitsVal xs * 10 + (c.toNat - 48) := by
  simp [digitsVal, List.foldl_append]

theorem digitsVal_reverse (l : List Char) : digitsVal l.reverse = valRev l := by
  induction l with
  | nil => rfl
  | cons c cs ih =>
    rw [List.reverse_cons, digitsVal_append_single, ih, valRev]
    omega

theorem digitsVal_natChars (n : Nat) : digitsVal (natChars n) = n := by
  by_cases hn : n = 0
  · subst hn
    rfl
  · rw [natChars, if_neg hn, digitsVal_reverse]
    exact natDigitsRevFuel_val n n le_rfl

/-! ## takeWhile / dropWhile across an append -/

theorem takeWhile_append_of_all {p : Char → Bool} :
    ∀ (l rest : List Char), (∀ c ∈ l, p c = true) →
      (∀ c cs, rest = c :: cs → p c = false) →
      (l ++ rest).takeWhile p = l ∧ (l ++ rest).dropWhile p = rest := by
  intro l
  induction l with
  | nil =>
    intro rest _ hr
    cases rest with
    | nil => exact ⟨rfl, rfl⟩
    | cons c cs =>
      simp [List.takeWhile_cons, List.dropWhile_cons, hr c cs rfl]
  | cons x xs ih =>
    intro rest hl hr
    have hx : p x = true := hl x (by simp)
    have ⟨h1, h2⟩ := ih rest (fun c hc => hl c (by simp [hc])) hr
    simp [List.takeWhile_cons, List.dropWhile_cons, hx, h1, h2]

/-! ## Number token round trip -/

theorem parseNatTok_natChars (n : Nat) (rest : List Char) (hr : headNotDigit rest) :
    parseNatTok (natChars n ++ rest) = .ok (n, rest) := by
  by_cases hn : n = 0
  · subst hn
    show parseNatTok ('0' :: rest) = _
    cases rest with
    | nil => rfl
    | cons c cs =>
      have hc : c.isDigit = false := hr
      simp [parseNatTok, hc]
  · obtain ⟨c, t, hct, hcd, hc0⟩ := natChars_head n
    have hc0' : c ≠ '0' := hc0 (by omega)
    rw [hct, List.cons_append]
    have htw := takeWhile_append_of_all (p := Char.isDigit) t rest
      (fun x hx => natChars_all_digits n x (by rw [hct]; exact List.mem_cons_of_mem c hx))
      (fun x cs hxc => by subst hxc; exact hr)
    simp only [parseNatTok, if_neg hc0', if_pos hcd, htw.1, htw.2]
    have : digitsVal (c :: t) = n := by rw [← hct]; exact digitsVal_natChars n
    rw [this]

/-! ## String escape round trip -/

theorem hexDigitChar_isHex : ∀ d : Nat, d < 16 → isHexDigitChar (Nat.digitChar d) = true := by
  decide

theorem hexVal_digitChar : ∀ d : Nat, d < 16 → hexVal (Nat.digitChar d) = d := by decide

theorem psb_quote (X : List Char) :
    parseStringBody ('\x5c' :: '\x22' :: X) =
      (match parseStringBody X with
       | .ok (s, r2) => .ok ('\x22' :: s, r2)
       | .error e => .error e) := rfl

theorem psb_backslash (X : List Char) :
    parseStringBody ('\x5c' :: '\x5c' :: X) =
      (match parseStringBody X with
       | .ok (s, r2) => .ok ('\x5c' :: s, r2)
       | .error e => .error e) := rfl

theorem psb_b (X : List Char) :
    parseStringBody ('\x5c' :: 'b' :: X) =
      (match parseStringBody X with
       | .ok (s, r2) => .ok ('\x08' :: s, r2)
       | .error e => .error e) := rfl

theorem psb_t (X : List Char) :
    parseStringBody ('\x5c' :: 't' :: X) =
      (match parseStringBody X with
       | .ok (s, r2) => .ok ('\x09' :: s, r2)
       | .error e => .error e) := rfl

theorem psb_n (X : List Char) :
    parseStringBody ('\x5c' :: 'n' :: X) =
      (match parseStringBody X with
       | .ok (s, r2) => .ok ('\x0a' :: s, r2)
       | .error e => .error e) := rfl

theorem psb_f (X : List Char) :
    parseStringBody ('\x5c' :: 'f' :: X) =
      (match parseStringBody X with
       | .ok (s, r2) => .ok ('\x0c' :: s, r2)
       | .error e => .error e) := rfl

theorem psb_r (X : List Char) :
    parseStringBody ('\x5c' :: 'r' :: X) =
      (match parseStringBody X with
       | .ok (s, r2) => .ok ('\x0d' :: s, r2)
       | .error e => .error e) := rfl

theorem psb_u (h1 h2 h3 h4 : Char) (X : List Char) :
    parseStringBody ('\x5c' :: 'u' :: h1 :: h2 :: h3 :: h4 :: X) =
      (if isHexDigitChar h1 && isHexDigitChar h2 && isHexDigitChar h3 && isHexDigitChar h4 then
        match parseStringBody X with
        | .ok (s, r2) =>
          .ok (Char.ofNat (hexVal h1 * 4096 + hexVal h2 * 256 + hexVal h3 * 16 + hexVal h4) :: s, r2)
        | .error e => .error e
      else .error .badEscape) := rfl

set_option maxHeartbeats 2000000 in
theorem psb_lit (c : Char) (X : List Char) (h22 : c ≠ '\x22') (h5c : c ≠ '\x5c')
    (hctl : ¬ c.toNat < 32) :
    parseStringBody (c :: X) =
      (match parseStringBody X with
       | .ok (s, r2) => .ok (c :: s, r2)
       | .error e => .error e) := by
  rw [parseStringBody.eq_def]
  split
  · rename_i heq
    exact absurd heq (by simp)
  · rename_i heq
    injection heq with h1 h2
    exact absurd h1 h22
  · rename_i heq
    injection heq with h1 h2
    exact absurd h1 h5c
  · rename_i c' rest' heq
    injection heq with h1 h2
    subst h1
    subst h2
    rw [if_neg hctl]

theorem parseStringBody_escStr :
    ∀ (l rest : List Char), parseStringBody (escStr l ++ '\x22' :: rest) = .ok (l, rest) := by
  intro l
  induction l with
  | nil => intro rest; rfl
  | cons c cs ih =>
    intro rest
    simp only [escStr, List.append_assoc]
    by_cases h1 : c = '\x22'
    · subst h1
      have he : escapeChar '\x22' = ['\x5c', '\x22'] := rfl
      rw [he, List.cons_append, List.cons_append, List.nil_append, psb_quote, ih]
    · by_cases h2 : c = '\x5c'
      · subst h2
        have he : escapeChar '\x5c' = ['\x5c', '\x5c'] := rfl
        rw [he, List.cons_append, List.cons_append, List.nil_append, psb_backslash, ih]
      · by_cases h3 : c = '\x08'
        · subst h3
          have he : escapeChar '\x08' = ['\x5c', 'b'] := rfl
          rw [he, List.cons_append, List.cons_append, List.nil_append, psb_b, ih]
        · by_cases h4 : c = '\x09'
          · subst h4
            have he : escapeChar '\x09' = ['\x5c', 't'] := rfl
            rw [he, List.cons_append, List.cons_append, List.nil_append, psb_t, ih]
          · by_cases h5 : c = '\x0a'
            · subst h5
              have he : escapeChar '\x0a' = ['\x5c', 'n'] := rfl
              rw [he, List.cons_append, List.cons_append, List.nil_append, psb_n, ih]
            · by_cases h6 : c = '\x0c'
              · subst h6
                have he : escapeChar '\x0c' = ['\x5c', 'f'] := rfl
                rw [he, List.cons_append, List.cons_append, List.nil_append, psb_f, ih]
              · by_cases h7 : c = '\x0d'
                · subst h7
                  have he : escapeChar '\x0d' = ['\x5c', 'r'] := rfl
                  rw [he, List.cons_append, List.cons_append, List.nil_append, psb_r, ih]
                · by_cases h8 : c.toNat < 32
                  · have he : escapeChar c =
                        ['\x5c', 'u', '0', '0', Nat.digitChar (c.toNat / 16),
                         Nat.digitChar (c.toNat % 16)] := by
                      rw [escapeChar, if_neg h1, if_neg h2, if_neg h3, if_neg h4, if_neg h5,
                        if_neg h6, if_neg h7, if_pos h8]
                    rw [he]
                    simp only [List.cons_append, List.nil_append]
                    rw [psb_u]
                    have hx1 : isHexDigitChar '0' = true := by decide
                    have hdiv : c.toNat / 16 < 16 := by omega
                    have hmod : c.toNat % 16 < 16 := by omega
                    rw [hx1, hexDigitChar_isHex _ hdiv, hexDigitChar_isHex _ hmod]
                    simp only [Bool.and_self, if_pos]
                    rw [ih]
                    have hv0 : hexVal '0' = 0 := rfl
                    rw [hv0, hexVal_digitChar _ hdiv, hexVal_digitChar _ hmod]
                    have hval : 0 * 4096 + 0 * 256 + c.toNat / 16 * 16 + c.toNat % 16 = c.toNat := by
                      omega
                    rw [hval, Char.ofNat_toNat]
                  · have he : escapeChar c = [c] := by
                      rw [escapeChar, if_neg h1, if_neg h2, if_neg h3, if_neg h4, if_neg h5,
                        if_neg h6, if_neg h7, if_neg h8]
                    rw [he, List.cons_append, List.nil_append, psb_lit c _ h1 h2 h8, ih]

theorem serStr_roundtrip (s : String) (rest : List Char) :
    parseStringBody (escStr s.data ++ '\x22' :: rest) = .ok (s.data, rest) :=
  parseStringBody_escStr s.data rest

/-! ## Serializer head shape -/

theorem serJson_head (p : Bool) (d : Nat) (v : Json) :
    ∃ c t, serJson p d v = c :: t ∧ isJsonWs c = false ∧ c ≠ ']' ∧ c ≠ '\x7d' := by
  cases v with
  | null => exact ⟨'n', _, rfl, by decide⟩
  | bool b =>
    cases b with
    | true => exact ⟨'t', _, rfl, by decide⟩
    | false => exact ⟨'f', _, rfl, by decide⟩
  | num i =>
    have hser : serJson p d (.num i) = serNum i := rfl
    rw [hser, serNum]
    by_cases hi : i < 0
    · exact ⟨'-', _, by rw [if_pos hi], by decide⟩
    · obtain ⟨c, t, hct, hcd, _⟩ := natChars_head i.natAbs
      refine ⟨c, t, by rw [if_neg hi, hct], isJsonWs_of_isDigit hcd, ?_, ?_⟩
      · exact ne_of_isDigit hcd (by decide)
      · exact ne_of_isDigit hcd (by decide)
  | str s => exact ⟨'\x22', _, rfl, by decide⟩
  | arr l =>
    cases l with
    | nil => exact ⟨'[', _, rfl, by decide⟩
    | cons x xs => exact ⟨'[', _, rfl, by decide⟩
  | obj l =>
    cases l with
    | nil => exact ⟨'\x7b', _, rfl, by decide⟩
    | cons m ms => exact ⟨'\x7b', _, rfl, by decide⟩

/-! ## Fuel bound -/

theorem jfuelItems_le (p : Bool) (d : Nat) :
    ∀ l : List Json, (∀ x ∈ l, ∀ p' d', jfuel x ≤ (serJson p' d' x).length) →
      jfuelItems l ≤ (serItems p d l).length + 1 := by
  intro l
  induction l with
  | nil => intro _; simp [jfuelItems, serItems]
  | cons x xs ih =>
    intro h
    cases xs with
    | nil =>
      have hx := h x (by simp) p d
      simp only [jfuelItems, serItems]
      omega
    | cons y ys =>
      have hx := h x (by simp) p d
      have hrest := ih (fun z hz p' d' => h z (by simp [hz]) p' d')
      simp only [jfuelItems, serItems, List.length_append, List.length_cons]
      omega

theorem jfuelMembers_le (p : Bool) (d : Nat) :
    ∀ l : List (String × Json), (∀ m ∈ l, ∀ p' d', jfuel m.2 ≤ (serJson p' d' m.2).length) →
      jfuelMembers l ≤ (serMembers p d l).length + 1 := by
  intro l
  induction l with
  | nil => intro _; simp [jfuelMembers, serMembers]
  | cons m ms ih =>
    intro h
    obtain ⟨k, v⟩ := m
    cases ms with
    | nil =>
      have hx : jfuel v ≤ (serJson p d v).length := h (k, v) (by simp) p d
      simp only [jfuelMembers, serMembers, List.length_append]
      omega
    | cons n ns =>
      have hx : jfuel v ≤ (serJson p d v).length := h (k, v) (by simp) p d
      have hrest := ih (fun z hz p' d' => h z (by simp [hz]) p' d')
      simp only [jfuelMembers, serMembers, List.length_append, List.length_cons]
      omega

theorem jfuel_le_length (v : Json) : ∀ p d, jfuel v ≤ (serJson p d v).length := by
  induction v using Json.recOnMem with
  | hnull => intro p d; simp [jfuel, serJson]
  | hbool b => intro p d; cases b <;> simp [jfuel, serJson]
  | hnum i =>
    intro p d
    obtain ⟨c, t, hct, _, _⟩ := natChars_head i.natAbs
    have hser : serJson p d (.num i) = serNum i := rfl
    rw [hser, serNum]
    by_cases hi : i < 0
    · rw [if_pos hi]
      simp [jfuel]
    · rw [if_neg hi, hct]
      simp [jfuel]
  | hstr s =>
    intro p d
    have hser : serJson p d (.str s) = serStr s := rfl
    rw [hser, serStr]
    simp [jfuel]
  | harr l hmem =>
    intro p d
    cases l with
    | nil => simp [jfuel, serJson]
    | cons x xs =>
      have hitems := jfuelItems_le p (d + 1) (x :: xs) hmem
      have hj : jfuel (.arr (x :: xs)) = 1 + jfuelItems (x :: xs) := rfl
      have hs : serJson p d (.arr (x :: xs)) =
          '[' :: (nlInd p (d + 1) ++ serItems p (d + 1) (x :: xs) ++ nlInd p d ++ [']']) := rfl
      rw [hj, hs]
      simp only [List.length_cons, List.length_append, List.length_singleton]
      omega
  | hobj l hmem =>
    intro p d
    cases l with
    | nil => simp [jfuel, serJson]
    | cons m ms =>
      have hitems := jfuelMembers_le p (d + 1) (m :: ms) hmem
      have hj : jfuel (.obj (m :: ms)) = 1 + jfuelMembers (m :: ms) := rfl
      have hs : serJson p d (.obj (m :: ms)) =
          '\x7b' :: (nlInd p (d + 1) ++ serMembers p (d + 1) (m :: ms) ++ nlInd p d ++ ['\x7d']) := rfl
      rw [hj, hs]
      simp only [List.length_cons, List.length_append, List.length_singleton]
      omega

/-! ## Parser dispatch lemmas -/

theorem pv_zero (cs : List Char) : parseValue 0 cs = .error .fuelExhausted := rfl

theorem pv_ws (fuel : Nat) {ws : List Char} (hws : ∀ c ∈ ws, isJsonWs c = true)
    (cs : List Char) : parseValue (fuel + 1) (ws ++ cs) = parseValue (fuel + 1) cs := by
  show parseTop _ _ (skipWs (ws ++ cs)) = parseTop _ _ (skipWs cs)
  rw [skipWs_append_allWs hws cs]

theorem pv_null (fuel : Nat) (rest : List Char) :
    parseValue (fuel + 1) ('n' :: 'u' :: 'l' :: 'l' :: rest) = .ok (.null, rest) := rfl

theorem pv_true (fuel : Nat) (rest : List Char) :
    parseValue (fuel + 1) ('t' :: 'r' :: 'u' :: 'e' :: rest) = .ok (.bool true, rest) := rfl

theorem pv_false (fuel : Nat) (rest : List Char) :
    parseValue (fuel + 1) ('f' :: 'a' :: 'l' :: 's' :: 'e' :: rest) = .ok (.bool false, rest) := rfl

theorem pv_str (fuel : Nat) (cs : List Char) :
    parseValue (fuel + 1) ('\x22' :: cs) =
      (match parseStringBody cs with
       | .ok (s, r) => .ok (.str ⟨s⟩, r)
       | .error e => .error e) := rfl

theorem pv_minus (fuel : Nat) (cs : List Char) :
    parseValue (fuel + 1) ('-' :: cs) =
      (match parseNatTok cs with
       | .ok (n, r) => .ok (.num (-(n : Int)), r)
       | .error e => .error e) := rfl

theorem pv_digit (fuel : Nat) {c : Char} (h : c.isDigit = true) (cs : List Char) :
    parseValue (fuel + 1) (c :: cs) =
      (match parseNatTok (c :: cs) with
       | .ok (n, r) => .ok (.num (n : Int), r)
       | .error e => .error e) := by
  show parseTop _ _ (skipWs (c :: cs)) = _
  rw [skipWs_cons_neg (isJsonWs_of_isDigit h), parseTop.eq_def]
  split
  · rename_i heq
    exact absurd heq (by simp)
  · rename_i heq
    injection heq with h1 h2
    exact absurd h1 (ne_of_isDigit h (by decide))
  · rename_i heq
    injection heq with h1 h2
    exact absurd h1 (ne_of_isDigit h (by decide))
  · rename_i heq
    injection heq with h1 h2
    exact absurd h1 (ne_of_isDigit h (by decide))
  · rename_i heq
    injection heq with h1 h2
    exact absurd h1 (ne_of_isDigit h (by decide))
  · rename_i heq
    injection heq with h1 h2
    exact absurd h1 (ne_of_isDigit h (by decide))
  · rename_i heq
    injection heq with h1 h2
    exact absurd h1 (ne_of_isDigit h (by decide))
  · rename_i heq
    injection heq with h1 h2
    exact absurd h1 (ne_of_isDigit h (by decide))
  · rename_i c' rest' heq
    injection heq with h1 h2
    subst h1
    subst h2
    rw [if_pos h]

theorem pv_arr (fuel : Nat) (cs : List Char) :
    parseValue (fuel + 1) ('[' :: cs) =
      (if headIs ']' (skipWs cs) then .ok (.arr [], (skipWs cs).tail)
       else
        match parseArrayItems fuel (skipWs cs) with
        | .ok (l, r) => .ok (.arr l, r)
        | .error e => .error e) := rfl

theorem pv_obj (fuel : Nat) (cs : List Char) :
    parseValue (fuel + 1) ('\x7b' :: cs) =
      (if headIs '\x7d' (skipWs cs) then .ok (.obj [], (skipWs cs).tail)
       else
        match parseObjectItems fuel (skipWs cs) with
        | .ok (l, r) => .ok (.obj l, r)
        | .error e => .error e) := rfl

theorem pai_succ (fuel : Nat) (cs : List Char) :
    parseArrayItems (fuel + 1) cs =
      (match parseValue fuel cs with
       | .ok (v, cs1) =>
        match skipWs cs1 with
        | ',' :: cs2 =>
          match parseArrayItems fuel cs2 with
          | .ok (l, cs3) => .ok (v :: l, cs3)
          | .error e => .error e
        | ']' :: cs2 => .ok ([v], cs2)
        | _ => .error .expectedCommaOrBracket
       | .error e => .error e) := rfl

theorem poi_succ (fuel : Nat) (cs : List Char) :
    parseObjectItems (fuel + 1) cs =
      (match skipWs cs with
       | '\x22' :: cs1 =>
        match parseStringBody cs1 with
        | .ok (k, cs2) =>
          match skipWs cs2 with
          | ':' :: cs3 =>
            match parseValue fuel cs3 with
            | .ok (v, cs4) =>
              match skipWs cs4 with
              | ',' :: cs5 =>
                match parseObjectItems fuel cs5 with
                | .ok (l, cs6) => .ok ((⟨k⟩, v) :: l, cs6)
                | .error e => .error e
              | '\x7d' :: cs5 => .ok ([(⟨k⟩, v)], cs5)
              | _ => .error .expectedCommaOrBrace
            | .error e => .error e
          | _ => .error .expectedColon
        | .error e => .error e
       | _ => .error .expectedKey) := rfl

/-! ## Support for the round-trip induction -/

theorem jfuel_pos (v : Json) : 1 ≤ jfuel v := by
  cases v with
  | null => exact le_refl 1
  | bool b => exact le_refl 1
  | num i => exact le_refl 1
  | str s => exact le_refl 1
  | arr l =>
    cases l with
    | nil => exact le_refl 1
    | cons x xs => simp [jfuel]
  | obj l =>
    cases l with
    | nil => exact le_refl 1
    | cons m ms => simp [jfuel]

theorem jfuelItems_pos {l : List Json} (h : l ≠ []) : 1 ≤ jfuelItems l := by
  cases l with
  | nil => exact absurd rfl h
  | cons x xs =>
    cases xs with
    | nil => simp [jfuelItems]
    | cons y ys => simp [jfuelItems]; omega

theorem jfuelMembers_pos {l : List (String × Json)} (h : l ≠ []) : 1 ≤ jfuelMembers l := by
  cases l with
  | nil => exact absurd rfl h
  | cons m ms =>
    obtain ⟨k, v⟩ := m
    cases ms with
    | nil => simp [jfuelMembers]
    | cons n ns => simp [jfuelMembers]; omega

theorem jfuelItems_cons_bound {x : Json} {xs : List Json} :
    1 + jfuel x ≤ jfuelItems (x :: xs) := by
  cases xs with
  | nil => simp [jfuelItems]
  | cons y ys =>
    have := jfuelItems_pos (l := y :: ys) (by simp)
    simp [jfuelItems]

theorem jfuelMembers_cons_bound {k : String} {v : Json} {ms : List (String × Json)} :
    1 + jfuel v ≤ jfuelMembers ((k, v) :: ms) := by
  cases ms with
  | nil => simp [jfuelMembers]
  | cons n ns =>
    have := jfuelMembers_pos (l := n :: ns) (by simp)
    simp [jfuelMembers]

theorem headIs_cons_ne {a c : Char} (h : c ≠ a) (t : List Char) : headIs a (c :: t) = false := by
  simp [headIs, h]

theorem headIs_cons_self (a : Char) (t : List Char) : headIs a (a :: t) = true := by
  simp [headIs]

theorem headNotDigit_allWs_append {ws : List Char} (hws : ∀ c ∈ ws, isJsonWs c = true)
    {c : Char} (hc : c.isDigit = false) (cs : List Char) : headNotDigit (ws ++ c :: cs) := by
  cases ws with
  | nil => exact hc
  | cons w t => exact not_isDigit_of_isJsonWs (hws w (by simp))

theorem serItems_head (p : Bool) (d : Nat) (x : Json) (xs : List Json) :
    ∃ c t, serItems p d (x :: xs) = c :: t ∧ isJsonWs c = false ∧ c ≠ ']' ∧ c ≠ '\x7d' := by
  obtain ⟨c, t, hct, hws, hbr, hbc⟩ := serJson_head p d x
  cases xs with
  | nil => exact ⟨c, t, by rw [serItems, hct], hws, hbr, hbc⟩
  | cons y ys =>
    refine ⟨c, t ++ ',' :: (nlInd p d ++ serItems p d (y :: ys)), ?_, hws, hbr, hbc⟩
    rw [serItems, hct, List.cons_append]

theorem colonSep_eq (p : Bool) : colonSep p = ':' :: (if p then [' '] else []) := by
  cases p <;> rfl

theorem colonTail_allWs (p : Bool) : ∀ c ∈ (if p then [' '] else []), isJsonWs c = true := by
  cases p <;> simp <;> decide

theorem serMembers_expand (p : Bool) (d : Nat) (k : String) (v : Json)
    (ms : List (String × Json)) :
    serMembers p d ((k, v) :: ms) = serStr k ++ colonSep p ++ serJson p d v ++
      serMembersTail p d ms := by
  cases ms with
  | nil => simp [serMembers, serMembersTail]
  | cons n ns => simp [serMembers, serMembersTail]

theorem headNotDigit_cons {c : Char} (h : c.isDigit = false) (cs : List Char) :
    headNotDigit (c :: cs) := h

/-! ## The round-trip theorem: parsing a serialization recovers the value -/

theorem roundtrip_main : ∀ fuel : Nat,
    (∀ (p : Bool) (d : Nat) (v : Json) (rest : List Char), jfuel v ≤ fuel → headNotDigit rest →
      parseValue fuel (serJson p d v ++ rest) = .ok (v, rest)) ∧
    (∀ (p : Bool) (d : Nat) (x : Json) (xs : List Json) (ws0 ws2 rest : List Char),
      (∀ c ∈ ws0, isJsonWs c = true) → (∀ c ∈ ws2, isJsonWs c = true) →
      jfuelItems (x :: xs) ≤ fuel →
      parseArrayItems fuel (ws0 ++ serItems p d (x :: xs) ++ ws2 ++ ']' :: rest) =
        .ok (x :: xs, rest)) ∧
    (∀ (p : Bool) (d : Nat) (k : String) (v : Json) (ms : List (String × Json))
      (ws0 ws2 rest : List Char),
      (∀ c ∈ ws0, isJsonWs c = true) → (∀ c ∈ ws2, isJsonWs c = true) →
      jfuelMembers ((k, v) :: ms) ≤ fuel →
      parseObjectItems fuel (ws0 ++ serMembers p d ((k, v) :: ms) ++ ws2 ++ '\x7d' :: rest) =
        .ok ((k, v) :: ms, rest)) := by
  intro fuel
  induction fuel with
  | zero =>
    refine ⟨?_, ?_, ?_⟩
    · intro p d v rest hf _
      have := jfuel_pos v
      omega
    · intro p d x xs ws0 ws2 rest _ _ hfl
      have := jfuelItems_pos (l := x :: xs) (by simp)
      omega
    · intro p d k v ms ws0 ws2 rest _ _ hfl
      have := jfuelMembers_pos (l := (k, v) :: ms) (by simp)
      omega
  | succ fuel ih =>
    obtain ⟨IHv, IHa, IHo⟩ := ih
    refine ⟨?_, ?_, ?_⟩
    · -- one value
      intro p d v rest hf hr
      cases v with
      | null => exact pv_null fuel rest
      | bool b =>
        cases b with
        | true => exact pv_true fuel rest
        | false => exact pv_false fuel rest
      | num i =>
        by_cases hi : i < 0
        · have hser : serJson p d (.num i) = '-' :: natChars i.natAbs := by
            show serNum i = _
            rw [serNum, if_pos hi]
          rw [hser, List.cons_append, pv_minus, parseNatTok_natChars i.natAbs rest hr]
          show Except.ok (Json.num (-((i.natAbs : Nat) : Int)), rest) = _
          have hcast : -((i.natAbs : Nat) : Int) = i := by omega
          rw [hcast]
        · have hser : serJson p d (.num i) = natChars i.natAbs := by
            show serNum i = _
            rw [serNum, if_neg hi]
          obtain ⟨c, t, hct, hcd, _⟩ := natChars_head i.natAbs
          have hpn := parseNatTok_natChars i.natAbs rest hr
          rw [hct, List.cons_append] at hpn
          rw [hser, hct, List.cons_append, pv_digit fuel hcd, hpn]
          show Except.ok (Json.num ((i.natAbs : Nat) : Int), rest) = _
          have hcast : ((i.natAbs : Nat) : Int) = i := by omega
          rw [hcast]
      | str s =>
        have hser : serJson p d (.str s) = '\x22' :: (escStr s.data ++ ['\x22']) := rfl
        rw [hser, List.cons_append, pv_str, List.append_assoc, List.singleton_append,
          parseStringBody_escStr s.data rest]
      | arr l =>
        cases l with
        | nil =>
          have hser : serJson p d (.arr []) = '[' :: [']'] := rfl
          rw [hser, List.cons_append, List.singleton_append, pv_arr,
            skipWs_cons_neg (by decide), headIs_cons_self]
          simp
        | cons x xs =>
          have hser : serJson p d (.arr (x :: xs)) =
              '[' :: (nlInd p (d + 1) ++ serItems p (d + 1) (x :: xs) ++ nlInd p d ++ [']']) := rfl
          rw [hser, List.cons_append, pv_arr]
          have hskip : skipWs ((nlInd p (d + 1) ++ serItems p (d + 1) (x :: xs) ++ nlInd p d
                ++ [']']) ++ rest)
              = serItems p (d + 1) (x :: xs) ++ (nlInd p d ++ (']' :: rest)) := by
            obtain ⟨c, t, hict, hicws, _, _⟩ := serItems_head p (d + 1) x xs
            simp only [List.append_assoc, List.singleton_append]
            rw [skipWs_append_allWs (nlInd_allWs p (d + 1)), hict, List.cons_append,
              skipWs_cons_neg hicws, ← List.cons_append, ← hict]
          rw [hskip]
          obtain ⟨c, t, hict, _, hicbr, _⟩ := serItems_head p (d + 1) x xs
          have hhead : headIs ']' (serItems p (d + 1) (x :: xs) ++ (nlInd p d ++ (']' :: rest)))
              = false := by
            rw [hict, List.cons_append]
            exact headIs_cons_ne hicbr _
          rw [hhead]
          have hjf : jfuelItems (x :: xs) ≤ fuel := by
            have h1 : jfuel (Json.arr (x :: xs)) = 1 + jfuelItems (x :: xs) := rfl
            omega
          have hloop := IHa p (d + 1) x xs [] (nlInd p d) rest (by simp) (nlInd_allWs p d) hjf
          simp only [List.nil_append, List.append_assoc] at hloop
          simp only [Bool.false_eq_true, if_false, hloop]
      | obj l =>
        cases l with
        | nil =>
          have hser : serJson p d (.obj []) = '\x7b' :: ['\x7d'] := rfl
          rw [hser, List.cons_append, List.singleton_append, pv_obj,
            skipWs_cons_neg (by decide), headIs_cons_self]
          simp
        | cons m ms =>
          obtain ⟨k, v⟩ := m
          have hm : serMembers p (d + 1) ((k, v) :: ms) = '\x22' ::
              (escStr k.data ++ ['\x22'] ++ colonSep p ++ serJson p (d + 1) v ++
                serMembersTail p (d + 1) ms) := by
            rw [serMembers_expand]
            show ('\x22' :: (escStr k.data ++ ['\x22'])) ++ _ ++ _ ++ _ = _
            simp only [List.cons_append, List.append_assoc]
          have hser : serJson p d (.obj ((k, v) :: ms)) =
              '\x7b' :: (nlInd p (d + 1) ++ serMembers p (d + 1) ((k, v) :: ms) ++ nlInd p d
                ++ ['\x7d']) := rfl
          rw [hser, List.cons_append, pv_obj]
          have hskip : skipWs ((nlInd p (d + 1) ++ serMembers p (d + 1) ((k, v) :: ms)
                ++ nlInd p d ++ ['\x7d']) ++ rest)
              = serMembers p (d + 1) ((k, v) :: ms) ++ (nlInd p d ++ ('\x7d' :: rest)) := by
            simp only [List.append_assoc, List.singleton_append]
            rw [skipWs_append_allWs (nlInd_allWs p (d + 1)), hm, List.cons_append,
              skipWs_cons_neg (by decide), ← List.cons_append, ← hm]
          rw [hskip]
          have hhead : headIs '\x7d'
              (serMembers p (d + 1) ((k, v) :: ms) ++ (nlInd p d ++ ('\x7d' :: rest)))
              = false := by
            rw [hm, List.cons_append]
            exact headIs_cons_ne (by decide) _
          rw [hhead]
          have hjf : jfuelMembers ((k, v) :: ms) ≤ fuel := by
            have h1 : jfuel (Json.obj ((k, v) :: ms)) = 1 + jfuelMembers ((k, v) :: ms) := rfl
            omega
          have hloop := IHo p (d + 1) k v ms [] (nlInd p d) rest (by simp) (nlInd_allWs p d) hjf
          simp only [List.nil_append, List.append_assoc] at hloop
          simp only [Bool.false_eq_true, if_false, hloop]
    · -- array element loop
      intro p d x xs ws0 ws2 rest hws0 hws2 hfl
      have hbound : 1 + jfuel x ≤ jfuelItems (x :: xs) := jfuelItems_cons_bound
      have hjx := jfuel_pos x
      obtain ⟨g, rfl⟩ : ∃ g, fuel = g + 1 := ⟨fuel - 1, by omega⟩
      rw [pai_succ]
      cases xs with
      | nil =>
        have hone : serItems p d [x] = serJson p d x := rfl
        have hnd : headNotDigit (ws2 ++ ']' :: rest) :=
          headNotDigit_allWs_append hws2 (by decide) rest
        have hv := IHv p d x (ws2 ++ ']' :: rest) (by omega) hnd
        have hmatch : skipWs (ws2 ++ ']' :: rest) = ']' :: rest := by
          rw [skipWs_append_allWs hws2, skipWs_cons_neg (by decide)]
        simp only [hone, List.append_assoc]
        rw [pv_ws g hws0, hv]
        simp only [hmatch]
      | cons y ys =>
        have hexp : serItems p d (x :: y :: ys) =
            serJson p d x ++ ',' :: (nlInd p d ++ serItems p d (y :: ys)) := rfl
        have hnd : headNotDigit (',' :: (nlInd p d ++ (serItems p d (y :: ys) ++
            (ws2 ++ ']' :: rest)))) := headNotDigit_cons (by decide) _
        have hv := IHv p d x (',' :: (nlInd p d ++ (serItems p d (y :: ys) ++
            (ws2 ++ ']' :: rest)))) (by omega) hnd
        have hjys : jfuelItems (y :: ys) ≤ g + 1 := by
          have h1 : jfuelItems (x :: y :: ys) = 1 + jfuel x + jfuelItems (y :: ys) := rfl
          omega
        have hloop := IHa p d y ys (nlInd p d) ws2 rest (nlInd_allWs p d) hws2 hjys
        simp only [List.append_assoc] at hloop
        simp only [hexp, List.append_assoc, List.cons_append]
        rw [pv_ws g hws0, hv]
        have hmatch : skipWs (',' :: (nlInd p d ++ (serItems p d (y :: ys) ++
            (ws2 ++ ']' :: rest)))) = ',' :: (nlInd p d ++ (serItems p d (y :: ys) ++
            (ws2 ++ ']' :: rest))) := skipWs_cons_neg (by decide) _
        simp only [hmatch, hloop]
    · -- object member loop
      intro p d k v ms ws0 ws2 rest hws0 hws2 hfl
      have hbound : 1 + jfuel v ≤ jfuelMembers ((k, v) :: ms) := jfuelMembers_cons_bound
      have hjv := jfuel_pos v
      obtain ⟨g, rfl⟩ : ∃ g, fuel = g + 1 := ⟨fuel - 1, by omega⟩
      rw [poi_succ]
      have hm : serMembers p d ((k, v) :: ms) = '\x22' ::
          (escStr k.data ++ ['\x22'] ++ colonSep p ++ serJson p d v ++
            serMembersTail p d ms) := by
        rw [serMembers_expand]
        show ('\x22' :: (escStr k.data ++ ['\x22'])) ++ _ ++ _ ++ _ = _
        simp only [List.cons_append, List.append_assoc]
      have hskip : skipWs (ws0 ++ serMembers p d ((k, v) :: ms) ++ ws2 ++ '\x7d' :: rest)
          = '\x22' :: (escStr k.data ++ ('\x22' :: (':' :: ((if p then [' '] else []) ++
              (serJson p d v ++
                (serMembersTail p d ms ++ (ws2 ++ '\x7d' :: rest))))))) := by
        simp only [List.append_assoc]
        rw [skipWs_append_allWs hws0, hm]
        simp only [List.cons_append]
        rw [skipWs_cons_neg (by decide : isJsonWs '\x22' = false)]
        simp only [colonSep_eq, List.append_assoc, List.cons_append, List.singleton_append,
          List.nil_append]
      rw [hskip]
      have hpsb := parseStringBody_escStr k.data (':' :: ((if p then [' '] else []) ++
          (serJson p d v ++
            (serMembersTail p d ms ++ (ws2 ++ '\x7d' :: rest)))))
      cases ms with
      | nil =>
        have htail : serMembersTail p d ([] : List (String × Json)) = [] := rfl
        have hnd : headNotDigit (ws2 ++ '\x7d' :: rest) :=
          headNotDigit_allWs_append hws2 (by decide : ('\x7d').isDigit = false) rest
        have hv := IHv p d v (ws2 ++ '\x7d' :: rest) (by omega) hnd
        have habs : parseValue (g + 1) ((if p then [' '] else []) ++
            (serJson p d v ++ (ws2 ++ '\x7d' :: rest))) = .ok (v, ws2 ++ '\x7d' :: rest) := by
          rw [pv_ws g (colonTail_allWs p), hv]
        have hmatch : skipWs (ws2 ++ '\x7d' :: rest) = '\x7d' :: rest := by
          rw [skipWs_append_allWs hws2, skipWs_cons_neg (by decide : isJsonWs '\x7d' = false)]
        simp only [htail, List.nil_append] at hpsb ⊢
        simp only [hpsb, skipWs_cons_neg (by decide : isJsonWs ':' = false), habs, hmatch]
      | cons n ns =>
        obtain ⟨k2, v2⟩ := n
        have htail : serMembersTail p d ((k2, v2) :: ns) =
            ',' :: (nlInd p d ++ serMembers p d ((k2, v2) :: ns)) := rfl
        have hnd : headNotDigit (',' :: (nlInd p d ++ serMembers p d ((k2, v2) :: ns)) ++
            (ws2 ++ '\x7d' :: rest)) := by
          rw [List.cons_append]
          exact headNotDigit_cons (by decide) _
        have hv := IHv p d v (',' :: (nlInd p d ++ serMembers p d ((k2, v2) :: ns)) ++
            (ws2 ++ '\x7d' :: rest)) (by omega) hnd
        have habs : parseValue (g + 1) ((if p then [' '] else []) ++
            (serJson p d v ++ (',' :: (nlInd p d ++ serMembers p d ((k2, v2) :: ns)) ++
              (ws2 ++ '\x7d' :: rest)))) =
            .ok (v, ',' :: (nlInd p d ++ serMembers p d ((k2, v2) :: ns)) ++
              (ws2 ++ '\x7d' :: rest)) := by
          rw [pv_ws g (colonTail_allWs p), hv]
        have hjns : jfuelMembers ((k2, v2) :: ns) ≤ g + 1 := by
          have h1 : jfuelMembers ((k, v) :: (k2, v2) :: ns) =
              1 + jfuel v + jfuelMembers ((k2, v2) :: ns) := rfl
          omega
        have hloop := IHo p d k2 v2 ns (nlInd p d) ws2 rest (nlInd_allWs p d) hws2 hjns
        simp only [List.append_assoc] at hloop
        simp only [htail, List.cons_append, List.append_assoc] at hpsb habs ⊢
        simp only [hpsb, skipWs_cons_neg (by decide : isJsonWs ':' = false), habs,
          skipWs_cons_neg (by decide : isJsonWs ',' = false), hloop]

/-! ## Top-level round trip -/

theorem parseValue_ser (p : Bool) (v : Json) :
    parseValue ((serJson p 0 v).length + 1) (serJson p 0 v) = .ok (v, []) := by
  have h := (roundtrip_main ((serJson p 0 v).length + 1)).1 p 0 v []
    (by have := jfuel_le_length v p 0; omega) trivial
  simpa using h

theorem parseJsonE_stringify (p : Bool) (v : Json) :
    parseJsonE (String.mk (serJson p 0 v)) = .ok v := by
  have hlen : (String.mk (serJson p 0 v)).length = (serJson p 0 v).length := rfl
  have hdata : (String.mk (serJson p 0 v)).data = serJson p 0 v := rfl
  rw [parseJsonE, hlen, hdata, parseValue_ser p v]
  rfl

theorem jsonParse_stringify2 (v : Json) : jsonParse (stringify2 v) = .ok v := by
  rw [jsonParse, stringify2, parseJsonE_stringify true v]

theorem jsonParse_stringifyMin (v : Json) : jsonParse (stringifyMin v) = .ok v := by
  rw [jsonParse, stringifyMin, parseJsonE_stringify false v]

/-! ## Error messages are never empty -/

theorem message_ne_empty (e : JsonError) : e.message ≠ "" := by
  cases e
  case unexpectedChar c =>
    show "Unexpected token in JSON" ≠ ""
    decide
  all_goals decide

theorem jsonParse_error_ne_empty {s : String} {e : String} (h : jsonParse s = .error e) :
    e ≠ "" := by
  rw [jsonParse] at h
  cases hp : parseJsonE s with
  | ok v => rw [hp] at h; exact absurd h (by simp)
  | error err =>
    rw [hp] at h
    injection h with h1
    rw [← h1]
    exact message_ne_empty err

/-! ## Editor-state lemmas -/

theorem handleRaw_ok {s : EditorState} {t : String} {v : Json} (h : jsonParse t = .ok v) :
    handleRawJsonInputChange s t = { s with displayData := v, errorMessage := "" } := by
  rw [handleRawJsonInputChange, h]

theorem handleRaw_err {s : EditorState} {t : String} {e : String} (h : jsonParse t = .error e) :
    handleRawJsonInputChange s t = { s with errorMessage := e } := by
  rw [handleRawJsonInputChange, h]

theorem handleRaw_raw (s : EditorState) (t : String) :
    (handleRawJsonInputChange s t).rawJsonInput = s.rawJsonInput := by
  cases h : jsonParse t with
  | ok v => rw [handleRaw_ok h]
  | error e => rw [handleRaw_err h]

theorem onTextChanged_ok {s : EditorState} {t : String} {v : Json} (h : jsonParse t = .ok v) :
    onTextChanged s t =
      { rawJsonInput := t, displayData := v, errorMessage := "" } := by
  rw [onTextChanged, handleRaw_ok h]

theorem onTextChanged_err {s : EditorState} {t : String} {e : String}
    (h : jsonParse t = .error e) :
    onTextChanged s t =
      { rawJsonInput := t, displayData := s.displayData, errorMessage := e } := by
  rw [onTextChanged, handleRaw_err h]

theorem handleEdit_raw (s : EditorState) (v : Json) :
    (handleEdit s v).rawJsonInput = stringify2 v := by
  rw [handleEdit, flushRawWatcher]
  by_cases hg : ({ s with rawJsonInput := stringify2 v } : EditorState).rawJsonInput
      = s.rawJsonInput
  · rw [if_pos hg]
  · rw [if_neg hg, handleRaw_raw]

theorem toggleFormat_ok {s : EditorState} {v : Json} (mode : Bool)
    (h : jsonParse s.rawJsonInput = .ok v) :
    (toggleFormat s mode).rawJsonInput = (if mode then stringifyMin v else stringify2 v) ∧
    (toggleFormat s mode).errorMessage = "" := by
  have hser : jsonParse (if mode then stringifyMin v else stringify2 v) = .ok v := by
    cases mode with
    | true => exact jsonParse_stringifyMin v
    | false => exact jsonParse_stringify2 v
  rw [toggleFormat, toggleFormatCore, h, flushRawWatcher]
  by_cases hg : ({ s with
      rawJsonInput := if mode then stringifyMin v else stringify2 v,
      errorMessage := "" } : EditorState).rawJsonInput = s.rawJsonInput
  · rw [if_pos hg]
    exact ⟨rfl, rfl⟩
  · rw [if_neg hg]
    rw [show ({ s with
        rawJsonInput := if mode then stringifyMin v else stringify2 v,
        errorMessage := "" } : EditorState).rawJsonInput
      = (if mode then stringifyMin v else stringify2 v) from rfl, handleRaw_ok hser]
    exact ⟨rfl, rfl⟩

theorem toggleFormat_err {s : EditorState} {e : String}
    (mode : Bool) (h : jsonParse s.rawJsonInput = .error e) :
    toggleFormat s mode = { s with errorMessage := "Invalid JSON: " ++ e } := by
  rw [toggleFormat, toggleFormatCore, h, flushRawWatcher, if_pos rfl]

theorem flushRawWatcher_msg (old : String) (s : EditorState) :
    (flushRawWatcher old s).errorMessage =
      if s.rawJsonInput = old then s.errorMessage
      else (handleRawJsonInputChange s s.rawJsonInput).errorMessage := by
  rw [flushRawWatcher]
  by_cases hg : s.rawJsonInput = old
  · rw [if_pos hg, if_pos hg]
  · rw [if_neg hg, if_neg hg]

theorem toggleFormatCore_ok {s : EditorState} {v : Json} (mode : Bool)
    (h : jsonParse s.rawJsonInput = .ok v) :
    toggleFormatCore s mode =
      { s with rawJsonInput := (if mode then stringifyMin v else stringify2 v), errorMessage := "" } := by
  rw [toggleFormatCore, h]

theorem toggleFormatCore_err {s : EditorState} {e : String} (mode : Bool)
    (h : jsonParse s.rawJsonInput = .error e) :
    toggleFormatCore s mode = { s with errorMessage := "Invalid JSON: " ++ e } := by
  rw [toggleFormatCore, h]

theorem loadFileContent_ok {lines : List String} {v : Json} (s : EditorState) (mode : Bool)
    (h : jsonParse (processFileLines lines) = .ok v) :
    (loadFileContent s mode lines).errorMessage = "" := by
  have hser : jsonParse (if mode then stringifyMin v else stringify2 v) = .ok v := by
    cases mode with
    | true => exact jsonParse_stringifyMin v
    | false => exact jsonParse_stringify2 v
  have hcore := @toggleFormatCore_ok { s with rawJsonInput := processFileLines lines } v mode h
  simp only [loadFileContent, hcore, flushRawWatcher_msg]
  by_cases hg : (if mode then stringifyMin v else stringify2 v) = s.rawJsonInput
  · rw [if_pos hg]
  · rw [if_neg hg, handleRaw_ok hser]

theorem loadFileContent_err {lines : List String} {e : String} (s : EditorState) (mode : Bool)
    (h : jsonParse (processFileLines lines) = .error e) :
    (loadFileContent s mode lines).errorMessage =
      (if processFileLines lines = s.rawJsonInput then "Invalid JSON: " ++ e else e) := by
  have hcore := @toggleFormatCore_err { s with rawJsonInput := processFileLines lines } e mode h
  simp only [loadFileContent, hcore, flushRawWatcher_msg]
  by_cases hg : processFileLines lines = s.rawJsonInput
  · rw [if_pos hg, if_pos hg]
  · rw [if_neg hg, if_neg hg, handleRaw_err h]

/-! ## One-step preservation of the synchronization invariant -/

theorem flush_ok_step (s : EditorState) (hG : GoodSync s) (s1 : EditorState) (v : Json)
    (hdisp : s1.displayData = s.displayData)
    (hraw : jsonParse s1.rawJsonInput = .ok v) :
    GoodSync (flushRawWatcher s.rawJsonInput s1) ∧
    stepLastGood (some s.displayData) ((flushRawWatcher s.rawJsonInput s1).rawJsonInput) =
      some ((flushRawWatcher s.rawJsonInput s1).displayData) := by
  rw [flushRawWatcher]
  by_cases hg : s1.rawJsonInput = s.rawJsonInput
  · rw [if_pos hg]
    have hv : jsonParse s.rawJsonInput = .ok v := by rw [← hg]; exact hraw
    have hd : s.displayData = v := hG v hv
    constructor
    · intro w hw
      rw [hraw] at hw
      injection hw with h1
      rw [hdisp, hd, h1]
    · show stepLastGood (some s.displayData) s1.rawJsonInput = some s1.displayData
      simp only [stepLastGood, hraw, hdisp, hd]
  · rw [if_neg hg, handleRaw_ok hraw]
    constructor
    · intro w hw
      have hw2 : jsonParse s1.rawJsonInput = .ok w := hw
      rw [hraw] at hw2
      simp only [Except.ok.injEq] at hw2
      exact hw2
    · show stepLastGood (some s.displayData) s1.rawJsonInput = some v
      simp only [stepLastGood, hraw]

theorem applyOp_step (s : EditorState) (hG : GoodSync s) (op : Op) :
    GoodSync (applyOp s op) ∧
    stepLastGood (some s.displayData) ((applyOp s op).rawJsonInput) =
      some ((applyOp s op).displayData) := by
  cases op with
  | textChanged t =>
    simp only [applyOp]
    cases h : jsonParse t with
    | ok v =>
      rw [onTextChanged_ok h]
      constructor
      · intro w hw
        have hw2 : jsonParse t = .ok w := hw
        rw [h] at hw2
        simp only [Except.ok.injEq] at hw2
        exact hw2
      · show stepLastGood (some s.displayData) t = some v
        simp only [stepLastGood, h]
    | error e =>
      rw [onTextChanged_err h]
      constructor
      · intro w hw
        have hw2 : jsonParse t = .ok w := hw
        rw [h] at hw2
        exact absurd hw2 (by simp)
      · show stepLastGood (some s.displayData) t = some s.displayData
        simp only [stepLastGood, h]
  | treeEdited v =>
    simp only [applyOp]
    rw [handleEdit]
    exact flush_ok_step s hG { s with rawJsonInput := stringify2 v } v rfl
      (jsonParse_stringify2 v)
  | format =>
    simp only [applyOp]
    cases h : jsonParse s.rawJsonInput with
    | ok v =>
      have hcore : toggleFormatCore s false =
          { s with rawJsonInput := stringify2 v, errorMessage := "" } := by
        rw [toggleFormatCore, h]
        rfl
      rw [formatJson, toggleFormat, hcore]
      exact flush_ok_step s hG _ v rfl (jsonParse_stringify2 v)
    | error e =>
      rw [formatJson, toggleFormat_err false h]
      constructor
      · intro w hw
        have hw2 : jsonParse s.rawJsonInput = .ok w := hw
        rw [h] at hw2
        exact absurd hw2 (by simp)
      · show stepLastGood (some s.displayData) s.rawJsonInput = some s.displayData
        simp only [stepLastGood, h]
  | minify =>
    simp only [applyOp]
    cases h : jsonParse s.rawJsonInput with
    | ok v =>
      have hcore : toggleFormatCore s true =
          { s with rawJsonInput := stringifyMin v, errorMessage := "" } := by
        rw [toggleFormatCore, h]
        rfl
      rw [minifyJson, toggleFormat, hcore]
      exact flush_ok_step s hG _ v rfl (jsonParse_stringifyMin v)
    | error e =>
      rw [minifyJson, toggleFormat_err true h]
      constructor
      · intro w hw
        have hw2 : jsonParse s.rawJsonInput = .ok w := hw
        rw [h] at hw2
        exact absurd hw2 (by simp)
      · show stepLastGood (some s.displayData) s.rawJsonInput = some s.displayData
        simp only [stepLastGood, h]

theorem runOps_lastGood (ops : List Op) :
    ∀ s : EditorState, GoodSync s →
      lastGoodFrom (some s.displayData) (rawsAfter s ops) =
        some ((runOps s ops).displayData) ∧ GoodSync (runOps s ops) := by
  induction ops with
  | nil =>
    intro s hG
    exact ⟨rfl, hG⟩
  | cons op ops ih =>
    intro s hG
    obtain ⟨hGs, hstep⟩ := applyOp_step s hG op
    obtain ⟨hrec1, hrec2⟩ := ih (applyOp s op) hGs
    constructor
    · show lastGoodFrom (some s.displayData)
        ((applyOp s op).rawJsonInput :: rawsAfter (applyOp s op) ops) =
        some ((runOps s (op :: ops)).displayData)
      calc lastGoodFrom (some s.displayData)
            ((applyOp s op).rawJsonInput :: rawsAfter (applyOp s op) ops)
          = lastGoodFrom (stepLastGood (some s.displayData) ((applyOp s op).rawJsonInput))
              (rawsAfter (applyOp s op) ops) := rfl
        _ = lastGoodFrom (some ((applyOp s op).displayData))
              (rawsAfter (applyOp s op) ops) := by rw [hstep]
        _ = some ((runOps (applyOp s op) ops).displayData) := hrec1
    · exact hrec2

/-! ## The claims -/

set_option maxRecDepth 8192 in
/-- Claim C1: after initialization and after any sequence of `onTextChanged`,
`onTreeEdited`, `format` and `minify` operations, `displayData` always equals
the parse of the most recent `rawJsonInput` value for which parsing succeeded;
no failed parse ever clears or replaces `displayData`. -/
theorem claim_C1 (ops : List Op) :
    lastGoodFrom none (initState.rawJsonInput :: rawsAfter initState ops) =
      some ((runOps initState ops).displayData) := by
  have hparse : jsonParse initRawText = .ok initJsonValue := by rfl
  have hdisp : initState.displayData = initJsonValue := by
    show (match jsonParse initRawText with
          | .ok v => v
          | .error _ => Json.obj [("error", Json.str "Invalid initial JSON")]) = initJsonValue
    rw [hparse]
  have hG : GoodSync initState := by
    intro w hw
    have hw2 : jsonParse initRawText = .ok w := hw
    rw [hparse] at hw2
    simp only [Except.ok.injEq] at hw2
    rw [hdisp]
    exact hw2
  have hstep : stepLastGood none initState.rawJsonInput = some initState.displayData := by
    show stepLastGood none initRawText = _
    simp only [stepLastGood, hparse, hdisp]
  calc lastGoodFrom none (initState.rawJsonInput :: rawsAfter initState ops)
      = lastGoodFrom (stepLastGood none initState.rawJsonInput) (rawsAfter initState ops) := rfl
    _ = lastGoodFrom (some initState.displayData) (rawsAfter initState ops) := by rw [hstep]
    _ = some ((runOps initState ops).displayData) := (runOps_lastGood ops initState hG).1

/-- Claim C2: for every string `t` that is syntactically valid JSON,
`onTextChanged t` sets `displayData` to the parse of `t` and clears the
diagnostic. -/
theorem claim_C2 (s : EditorState) (t : String) (v : Json) (h : jsonParse t = .ok v) :
    (onTextChanged s t).displayData = v ∧ (onTextChanged s t).errorMessage = "" := by
  rw [onTextChanged_ok h]
  exact ⟨rfl, rfl⟩

/-- Concrete instance of C2 with valid input. -/
theorem claim_C2_witness :
    jsonParse "\x7b\x22a\x22:1\x7d" = .ok (Json.obj [("a", Json.num 1)]) ∧
    ((onTextChanged initState "\x7b\x22a\x22:1\x7d").displayData = Json.obj [("a", Json.num 1)] ∧
     (onTextChanged initState "\x7b\x22a\x22:1\x7d").errorMessage = "") :=
  ⟨by rfl, claim_C2 initState "\x7b\x22a\x22:1\x7d" (Json.obj [("a", Json.num 1)]) (by rfl)⟩

/-- Claim C3: for every string `t` that is not syntactically valid JSON,
`onTextChanged t` leaves `displayData` at its prior value and sets a
non-empty diagnostic. -/
theorem claim_C3 (s : EditorState) (t : String) (e : String) (h : jsonParse t = .error e) :
    (onTextChanged s t).displayData = s.displayData ∧
    (onTextChanged s t).errorMessage = e ∧ e ≠ "" := by
  rw [onTextChanged_err h]
  exact ⟨rfl, rfl, jsonParse_error_ne_empty h⟩

/-- Concrete instance of C3 with the truncated document of the spec. -/
theorem claim_C3_witness :
    jsonParse "\x7b\x22a\x22:1" =
      .error "Expected comma or close brace after property value in JSON" ∧
    ((onTextChanged initState "\x7b\x22a\x22:1").displayData = initState.displayData ∧
     (onTextChanged initState "\x7b\x22a\x22:1").errorMessage =
       "Expected comma or close brace after property value in JSON" ∧
     "Expected comma or close brace after property value in JSON" ≠ "") :=
  ⟨by rfl, claim_C3 initState "\x7b\x22a\x22:1"
    "Expected comma or close brace after property value in JSON" (by rfl)⟩

/-- Claim C4: when `rawJsonInput` parses, `format()` replaces it with the
2-space-indent pretty serialization of the parsed value and clears the
diagnostic; in particular the text of an `a`-to-1 object formats to the
three-line form of the spec's example. -/
theorem claim_C4 (s : EditorState) (v : Json) (h : jsonParse s.rawJsonInput = .ok v) :
    (formatJson s).rawJsonInput = stringify2 v ∧ (formatJson s).errorMessage = "" ∧
    stringify2 (Json.obj [("a", Json.num 1)]) = "\x7b\n  \x22a\x22: 1\n\x7d" := by
  have ht := toggleFormat_ok false h
  exact ⟨ht.1, ht.2, by rfl⟩

/-- Concrete instance of C4 on the spec's example input. -/
theorem claim_C4_witness :
    jsonParse exampleValidState.rawJsonInput = .ok (Json.obj [("a", Json.num 1)]) ∧
    ((formatJson exampleValidState).rawJsonInput = stringify2 (Json.obj [("a", Json.num 1)]) ∧
     (formatJson exampleValidState).errorMessage = "" ∧
     stringify2 (Json.obj [("a", Json.num 1)]) = "\x7b\n  \x22a\x22: 1\n\x7d") :=
  ⟨by rfl, claim_C4 exampleValidState (Json.obj [("a", Json.num 1)]) (by rfl)⟩

/-- Claim C5: when `rawJsonInput` does not parse, `format()` and `minify()`
each set the diagnostic to the parser's message prefixed with
`Invalid JSON: ` and leave `rawJsonInput` unchanged. -/
theorem claim_C5 (s : EditorState) (e : String) (h : jsonParse s.rawJsonInput = .error e) :
    (formatJson s).rawJsonInput = s.rawJsonInput ∧
    (formatJson s).errorMessage = "Invalid JSON: " ++ e ∧
    (minifyJson s).rawJsonInput = s.rawJsonInput ∧
    (minifyJson s).errorMessage = "Invalid JSON: " ++ e ∧ e ≠ "" := by
  have hf := toggleFormat_err false h
  have hm := toggleFormat_err true h
  refine ⟨?_, ?_, ?_, ?_, jsonParse_error_ne_empty h⟩
  · show (toggleFormat s false).rawJsonInput = _
    rw [hf]
  · show (toggleFormat s false).errorMessage = _
    rw [hf]
  · show (toggleFormat s true).rawJsonInput = _
    rw [hm]
  · show (toggleFormat s true).errorMessage = _
    rw [hm]

/-- Concrete instance of C5 on the truncated document. -/
theorem claim_C5_witness :
    jsonParse exampleInvalidState.rawJsonInput =
      .error "Expected comma or close brace after property value in JSON" ∧
    ((formatJson exampleInvalidState).rawJsonInput = exampleInvalidState.rawJsonInput ∧
     (formatJson exampleInvalidState).errorMessage =
       "Invalid JSON: " ++ "Expected comma or close brace after property value in JSON" ∧
     (minifyJson exampleInvalidState).rawJsonInput = exampleInvalidState.rawJsonInput ∧
     (minifyJson exampleInvalidState).errorMessage =
       "Invalid JSON: " ++ "Expected comma or close brace after property value in JSON" ∧
     "Expected comma or close brace after property value in JSON" ≠ "") :=
  ⟨by rfl, claim_C5 exampleInvalidState
    "Expected comma or close brace after property value in JSON" (by rfl)⟩

/-- Claim C6: round trip — after `onTreeEdited v` (`handleEdit`), the
resulting `rawJsonInput` parses successfully and the parsed result equals
`v`, for every JSON value `v`. -/
theorem claim_C6 (s : EditorState) (v : Json) :
    jsonParse ((handleEdit s v).rawJsonInput) = .ok v := by
  rw [handleEdit_raw]
  exact jsonParse_stringify2 v

/-- Claim C7: when `rawJsonInput` parses, `format()` followed by `minify()`
yields a text whose parse equals the parse of the original text. -/
theorem claim_C7 (s : EditorState) (v : Json) (h : jsonParse s.rawJsonInput = .ok v) :
    jsonParse ((minifyJson (formatJson s)).rawJsonInput) = jsonParse s.rawJsonInput := by
  have h1 := toggleFormat_ok false h
  have h2 : jsonParse (formatJson s).rawJsonInput = .ok v := by
    rw [show (formatJson s).rawJsonInput = stringify2 v from h1.1]
    exact jsonParse_stringify2 v
  have h3 := toggleFormat_ok true h2
  rw [show (minifyJson (formatJson s)).rawJsonInput = stringifyMin v from h3.1,
    jsonParse_stringifyMin v, h]

/-- Concrete instance of C7. -/
theorem claim_C7_witness :
    jsonParse exampleValidState.rawJsonInput = .ok (Json.obj [("a", Json.num 1)]) ∧
    jsonParse ((minifyJson (formatJson exampleValidState)).rawJsonInput) =
      jsonParse exampleValidState.rawJsonInput :=
  ⟨by rfl, claim_C7 exampleValidState (Json.obj [("a", Json.num 1)]) (by rfl)⟩

/-- Claim C8 counterexample: the path `json` contains no dot — it has no
`.json` or `.txt` extension — yet `displayJSON` accepts it and loads the
file (`split('.').pop()` returns the whole name, which is in the accept
list), with no `Unsupported file type` diagnostic. -/
theorem claim_C8_counterexample :
    ('.' ∈ "json".data → False) ∧
    displayJSON initState false (some "json") ["1"] =
      { rawJsonInput := "1", displayData := Json.num 1, errorMessage := "" } := by
  constructor
  · decide
  · rfl

/-- Claim C8 (amended): a file path is accepted exactly when the substring
after its last dot — the entire path when it contains no dot — is the
literal `json` or `txt`; any other non-empty path is rejected with the
`Unsupported file type` diagnostic instead of loading the file. -/
theorem claim_C8_amended (s : EditorState) (mode : Bool) (p : String) (lines : List String)
    (hne : p ≠ "") :
    (fileExtensions.contains (fileExtensionOf p) = true →
      displayJSON s mode (some p) lines = loadFileContent s mode lines) ∧
    (fileExtensions.contains (fileExtensionOf p) = false →
      displayJSON s mode (some p) lines =
        { s with errorMessage := "Unsupported file type: " ++ fileExtensionOf p }) := by
  constructor
  · intro h
    simp only [displayJSON, if_neg hne, h, if_pos]
  · intro h
    simp only [displayJSON, if_neg hne, h, Bool.false_eq_true, if_false]

/-- Concrete instances of the amended C8, one accepted and one rejected
path. -/
theorem claim_C8_amended_witness :
    ("a.json" ≠ "" ∧ fileExtensions.contains (fileExtensionOf "a.json") = true ∧
      displayJSON initState false (some "a.json") ["1"] =
        loadFileContent initState false ["1"]) ∧
    ("data.png" ≠ "" ∧ fileExtensions.contains (fileExtensionOf "data.png") = false ∧
      displayJSON initState false (some "data.png") ["1"] =
        { initState with errorMessage := "Unsupported file type: " ++ fileExtensionOf "data.png" }) :=
  ⟨⟨by decide, by rfl,
    (claim_C8_amended initState false "a.json" ["1"] (by decide)).1 (by rfl)⟩,
   ⟨by decide, by rfl,
    (claim_C8_amended initState false "data.png" ["1"] (by decide)).2 (by rfl)⟩⟩

/-- Claim C9 counterexample: a successful save — a path was chosen and the
write succeeded, so no error occurred — leaves the non-empty status text
`File saved successfully!` in the diagnostic field, contradicting the
claim that the diagnostic is non-empty only when an error occurred. -/
theorem claim_C9_counterexample :
    (saveFile initState (some "untitled.json") none).errorMessage =
      "File saved successfully!" ∧
    "File saved successfully!" ≠ "" := by
  constructor
  · rfl
  · decide

/-- Claim C9 (amended): the diagnostic invariant holds across
initialization, `onTextChanged`, `onTreeEdited`, `format`, `minify` and
file open — the diagnostic is cleared when the operation's parse succeeds
(including the parse of loaded file content) and otherwise holds the error
message: the parse message on a text-change failure, the wrapped
`Invalid JSON: ` message for format/minify (and for a loaded file whose
content equals the current text), `Unsupported file type: ` with the
extension for a rejected path, `file extension is null.` for a null or
empty path, and a no-op tree edit leaves the diagnostic unchanged — but
`saveFile` deviates: it stores the status text `File saved successfully!`
when the save succeeded and no error occurred (`No file path selected.`
on cancellation, `Error saving file: ` with the error on a write
failure). -/
theorem claim_C9_amended :
    initState.errorMessage = "" ∧
    (∀ (s : EditorState) (t : String) (v : Json), jsonParse t = .ok v →
      (onTextChanged s t).errorMessage = "") ∧
    (∀ (s : EditorState) (t e : String), jsonParse t = .error e →
      (onTextChanged s t).errorMessage = e ∧ e ≠ "") ∧
    (∀ (s : EditorState) (v : Json), stringify2 v ≠ s.rawJsonInput →
      (handleEdit s v).errorMessage = "") ∧
    (∀ (s : EditorState) (v : Json), stringify2 v = s.rawJsonInput →
      (handleEdit s v).errorMessage = s.errorMessage) ∧
    (∀ (s : EditorState) (v : Json), jsonParse s.rawJsonInput = .ok v →
      (formatJson s).errorMessage = "" ∧ (minifyJson s).errorMessage = "") ∧
    (∀ (s : EditorState) (e : String), jsonParse s.rawJsonInput = .error e →
      (formatJson s).errorMessage = "Invalid JSON: " ++ e ∧
      (minifyJson s).errorMessage = "Invalid JSON: " ++ e ∧ e ≠ "") ∧
    (∀ (s : EditorState) (mode : Bool) (p : String) (lines : List String) (v : Json),
      p ≠ "" → fileExtensions.contains (fileExtensionOf p) = true →
      jsonParse (processFileLines lines) = .ok v →
      (displayJSON s mode (some p) lines).errorMessage = "") ∧
    (∀ (s : EditorState) (mode : Bool) (p : String) (lines : List String) (e : String),
      p ≠ "" → fileExtensions.contains (fileExtensionOf p) = true →
      jsonParse (processFileLines lines) = .error e →
      (displayJSON s mode (some p) lines).errorMessage =
        (if processFileLines lines = s.rawJsonInput then "Invalid JSON: " ++ e else e) ∧
      e ≠ "") ∧
    (∀ (s : EditorState) (mode : Bool) (p : String) (lines : List String),
      p ≠ "" → fileExtensions.contains (fileExtensionOf p) = false →
      (displayJSON s mode (some p) lines).errorMessage =
        "Unsupported file type: " ++ fileExtensionOf p) ∧
    (∀ (s : EditorState) (mode : Bool) (lines : List String),
      (displayJSON s mode none lines).errorMessage = "file extension is null.") ∧
    (∀ (s : EditorState) (mode : Bool) (lines : List String),
      (displayJSON s mode (some "") lines).errorMessage = "file extension is null.") ∧
    (∀ (s : EditorState) (pth : String),
      (saveFile s (some pth) none).errorMessage = "File saved successfully!") ∧
    (∀ (s : EditorState),
      (saveFile s none none).errorMessage = "No file path selected.") ∧
    (∀ (s : EditorState) (pth err : String),
      (saveFile s (some pth) (some err)).errorMessage =
        "Error saving file: " ++ toString err) := by
  refine ⟨rfl, ?_, ?_, ?_, ?_, ?_, ?_, ?_, ?_, ?_, ?_, ?_, ?_, ?_, ?_⟩
  · intro s t v h
    rw [onTextChanged_ok h]
  · intro s t e h
    rw [onTextChanged_err h]
    exact ⟨rfl, jsonParse_error_ne_empty h⟩
  · intro s v hne
    rw [handleEdit, flushRawWatcher, if_neg hne, handleRaw_ok (jsonParse_stringify2 v)]
  · intro s v hg
    simp only [handleEdit, flushRawWatcher_msg]
    rw [if_pos hg]
  · intro s v h
    exact ⟨(toggleFormat_ok false h).2, (toggleFormat_ok true h).2⟩
  · intro s e h
    refine ⟨?_, ?_, jsonParse_error_ne_empty h⟩
    · show (toggleFormat s false).errorMessage = _
      rw [toggleFormat_err false h]
    · show (toggleFormat s true).errorMessage = _
      rw [toggleFormat_err true h]
  · intro s mode p lines v hp hext hc
    have hd : displayJSON s mode (some p) lines = loadFileContent s mode lines := by
      simp only [displayJSON, if_neg hp, hext, if_pos]
    rw [hd]
    exact loadFileContent_ok s mode hc
  · intro s mode p lines e hp hext hc
    have hd : displayJSON s mode (some p) lines = loadFileContent s mode lines := by
      simp only [displayJSON, if_neg hp, hext, if_pos]
    rw [hd]
    exact ⟨loadFileContent_err s mode hc, jsonParse_error_ne_empty hc⟩
  · intro s mode p lines hp hext
    have hd : displayJSON s mode (some p) lines =
        { s with errorMessage := "Unsupported file type: " ++ fileExtensionOf p } := by
      simp only [displayJSON, if_neg hp, hext, Bool.false_eq_true, if_false]
    rw [hd]
  · intro s mode lines
    rfl
  · intro s mode lines
    rfl
  · intro s pth
    rfl
  · intro s
    rfl
  · intro s pth err
    rfl

/-- Concrete instances discharging every hypothesis of the amended C9,
one per clause. -/
theorem claim_C9_amended_witness :
    ((onTextChanged initState "1").errorMessage = "") ∧
    ((onTextChanged initState "\x7b").errorMessage =
        "Expected property name or close brace in JSON" ∧
      "Expected property name or close brace in JSON" ≠ "") ∧
    ((handleEdit exampleValidState (Json.num 2)).errorMessage = "") ∧
    ((handleEdit exampleEditNoopState (Json.num 1)).errorMessage =
      exampleEditNoopState.errorMessage) ∧
    ((formatJson exampleValidState).errorMessage = "" ∧
      (minifyJson exampleValidState).errorMessage = "") ∧
    ((formatJson exampleInvalidState).errorMessage =
        "Invalid JSON: " ++ "Expected comma or close brace after property value in JSON" ∧
      (minifyJson exampleInvalidState).errorMessage =
        "Invalid JSON: " ++ "Expected comma or close brace after property value in JSON" ∧
      "Expected comma or close brace after property value in JSON" ≠ "") ∧
    ((displayJSON initState false (some "a.json") ["1"]).errorMessage = "") ∧
    ((displayJSON initState false (some "b.txt") ["\x7b"]).errorMessage =
        (if processFileLines ["\x7b"] = initState.rawJsonInput
         then "Invalid JSON: " ++ "Expected property name or close brace in JSON"
         else "Expected property name or close brace in JSON") ∧
      "Expected property name or close brace in JSON" ≠ "") ∧
    ((displayJSON initState false (some "data.png") ["1"]).errorMessage =
      "Unsupported file type: " ++ fileExtensionOf "data.png") ∧
    ((displayJSON initState false none []).errorMessage = "file extension is null.") ∧
    ((displayJSON initState false (some "") []).errorMessage = "file extension is null.") ∧
    ((saveFile initState (some "a.json") none).errorMessage = "File saved successfully!") ∧
    ((saveFile initState none none).errorMessage = "No file path selected.") ∧
    ((saveFile initState (some "a.json") (some "disk full")).errorMessage =
      "Error saving file: " ++ toString "disk full") :=
  ⟨claim_C9_amended.2.1 initState "1" (Json.num 1) (by rfl),
   claim_C9_amended.2.2.1 initState "\x7b" "Expected property name or close brace in JSON" (by rfl),
   claim_C9_amended.2.2.2.1 exampleValidState (Json.num 2) (by decide),
   claim_C9_amended.2.2.2.2.1 exampleEditNoopState (Json.num 1) (by rfl),
   claim_C9_amended.2.2.2.2.2.1 exampleValidState (Json.obj [("a", Json.num 1)]) (by rfl),
   claim_C9_amended.2.2.2.2.2.2.1 exampleInvalidState
     "Expected comma or close brace after property value in JSON" (by rfl),
   claim_C9_amended.2.2.2.2.2.2.2.1 initState false "a.json" ["1"] (Json.num 1)
     (by decide) (by rfl) (by rfl),
   claim_C9_amended.2.2.2.2.2.2.2.2.1 initState false "b.txt" ["\x7b"]
     "Expected property name or close brace in JSON" (by decide) (by rfl) (by rfl),
   claim_C9_amended.2.2.2.2.2.2.2.2.2.1 initState false "data.png" ["1"]
     (by decide) (by rfl),
   claim_C9_amended.2.2.2.2.2.2.2.2.2.2.1 initState false [],
   claim_C9_amended.2.2.2.2.2.2.2.2.2.2.2.1 initState false [],
   claim_C9_amended.2.2.2.2.2.2.2.2.2.2.2.2.1 initState "a.json",
   claim_C9_amended.2.2.2.2.2.2.2.2.2.2.2.2.2.1 initState,
   claim_C9_amended.2.2.2.2.2.2.2.2.2.2.2.2.2.2 initState "a.json" "disk full"⟩

/-- Claim C10: for every file path whose substring after the last dot —
the entire text when there is no dot, case-sensitively — is not `json` or
`txt`, `displayJSON` changes only the diagnostic and leaves `rawJsonInput`
and `displayData` unchanged. -/
theorem claim_C10 (s : EditorState) (mode : Bool) (p : String) (lines : List String)
    (h : fileExtensions.contains (fileExtensionOf p) = false) :
    (displayJSON s mode (some p) lines).rawJsonInput = s.rawJsonInput ∧
    (displayJSON s mode (some p) lines).displayData = s.displayData ∧
    ((displayJSON s mode (some p) lines).errorMessage = "file extension is null." ∨
     (displayJSON s mode (some p) lines).errorMessage =
       "Unsupported file type: " ++ fileExtensionOf p) := by
  by_cases hp : p = ""
  · subst hp
    exact ⟨rfl, rfl, Or.inl rfl⟩
  · have hd : displayJSON s mode (some p) lines =
        { s with errorMessage := "Unsupported file type: " ++ fileExtensionOf p } := by
      simp only [displayJSON, if_neg hp, h, Bool.false_eq_true, if_false]
    rw [hd]
    exact ⟨rfl, rfl, Or.inr rfl⟩

/-- Concrete instance of C10 with an upper-case extension. -/
theorem claim_C10_witness :
    fileExtensions.contains (fileExtensionOf "photo.JSON") = false ∧
    ((displayJSON initState false (some "photo.JSON") []).rawJsonInput =
        initState.rawJsonInput ∧
     (displayJSON initState false (some "photo.JSON") []).displayData =
        initState.displayData ∧
     ((displayJSON initState false (some "photo.JSON") []).errorMessage =
        "file extension is null." ∨
      (displayJSON initState false (some "photo.JSON") []).errorMessage =
        "Unsupported file type: " ++ fileExtensionOf "photo.JSON")) :=
  ⟨by rfl, claim_C10 initState false "photo.JSON" [] (by rfl)⟩
